import Mathlib

/-!
Verification development for the see-why/Crawler repository.

The Go source is shallowly embedded: pure string manipulation is modelled
over lists of characters, the Go maps (protected by mutexes in the source)
are modelled as association lists, and the crawl engine is modelled as a
state machine whose runs are sequences of visit events.  Mutex-protected
registry operations are atomic in the source, so any concurrent execution
projects to such a sequence.

External library functions used by the source (notably Go's net/url
parsing and resolution) are modelled faithfully for the class of
well-formed absolute http(s)-style URLs that the crawler manipulates:
scheme://[userinfo@]host[:port][/path][?query][#fragment].  Inside this
class the model follows the observable behaviour of net/url Parse,
URL.Hostname and URL.EscapedPath step by step; inputs outside the class
are mapped to parse failure.
-/

namespace Crawler

/-- Split a character list at the first occurrence of a character.
Mirrors the `split(s, c, cutc=true)` helper of Go's net/url: returns the
part before the first occurrence, and `some` of the part after it (the
separator removed), or `none` when the character does not occur. -/
def splitFirst (c : Char) : List Char → List Char × Option (List Char)
  | [] => ([], none)
  | x :: xs =>
    if x = c then ([], some xs)
    else
      let r := splitFirst c xs
      (x :: r.1, r.2)

/-- Split a character list at the last occurrence of a character, as in
`strings.LastIndex` used by net/url's parseAuthority for the userinfo
separator. -/
def splitLast (c : Char) (l : List Char) : List Char × Option (List Char) :=
  match splitFirst c l.reverse with
  | (_, none) => (l, none)
  | (a, some b) => (b.reverse, some a.reverse)

/-- Go `strings.TrimPrefix`: remove one occurrence of the prefix when present. -/
def goTrimPre (l pre : List Char) : List Char :=
  if pre.isPrefixOf l then l.drop pre.length else l

/-- Go `strings.TrimSuffix`: remove one occurrence of the suffix when present. -/
def goTrimSuf (l suf : List Char) : List Char :=
  if suf.isSuffixOf l then l.take (l.length - suf.length) else l

/-- Valid character inside a Go URL scheme after the first one
(net/url getScheme): alphanumerics and `+`, `-`, `.`. -/
def isSchemeChar (c : Char) : Bool :=
  c.isAlphanum || c = '+' || c = '-' || c = '.'

/-- Validity of a scheme as accepted by net/url getScheme: nonempty,
first character alphabetic, remaining characters scheme characters. -/
def validSchemeB : List Char → Bool
  | [] => false
  | c :: cs => c.isAlpha && cs.all isSchemeChar

/-- Lowercasing of the scheme performed by net/url parse. -/
def lowerCL (l : List Char) : List Char := l.map Char.toLower

/-- The components of a parsed URL kept by the model: the (lowercased)
scheme, the host part of the authority (userinfo removed, optional port
retained, as in Go's URL.Host), the path, and the optional raw query and
fragment. -/
structure GoURL where
  scheme : List Char
  host : List Char
  path : List Char
  query : Option (List Char)
  frag : Option (List Char)
deriving DecidableEq, Repr

/-- net/url parseAuthority: the host is the part of the authority after
the last `@`; without a `@` the whole authority is the host. -/
def hostOf (auth : List Char) : List Char :=
  match splitLast '@' auth with
  | (_, some h) => h
  | (a, none) => a

/-- Modelled from the external net/url Parse, restricted to absolute URLs
with an authority (`scheme://...`); other shapes are mapped to parse
failure.  Follows the real parse order: the fragment is cut at the first
`#`, the scheme at the first `:` (validated by getScheme), the raw query
at the first `?`, the authority runs to the next `/`, the userinfo part
of the authority ends at the last `@`.  Character validation of host,
port and path and percent-decoding are outside the modelled class. -/
def goParse (s : String) : Option GoURL :=
  let l := s.toList
  let p1 := splitFirst '#' l
  match splitFirst ':' p1.1 with
  | (_, none) => none
  | (sch, some rest) =>
    if validSchemeB sch then
      let p2 := splitFirst '?' rest
      match p2.1 with
      | '/' :: '/' :: ap =>
        let p3 := splitFirst '/' ap
        let path : List Char :=
          match p3.2 with
          | none => []
          | some r => '/' :: r
        some ⟨lowerCL sch, hostOf p3.1, path, p2.2, p1.2⟩
      | _ => none
    else none

/-- Modelled from net/url URL.Hostname: the host with the port stripped
at the first colon (the bracketed IPv6 form is outside the modelled
class). -/
def goHostname (u : GoURL) : List Char := (splitFirst ':' u.host).1

/-- The list of characters of the literal "www.". -/
def wwwL : List Char := 'w' :: 'w' :: 'w' :: '.' :: []

/-- The key normalizeURL computes from a parsed URL: strip one leading
"www." from the hostname, strip one trailing "/" from the escaped path
(which equals the path itself inside the modelled class, where no
percent-escaping occurs), and return host ++ path, the host alone when
the trimmed path is empty. -/
def normKey (u : GoURL) : String :=
  let host := goTrimPre (goHostname u) wwwL
  let path := goTrimSuf u.path ['/']
  String.mk (if path.isEmpty then host else host ++ path)

/-- normalizeURL from src/normalize_url.go: parse, then build the key;
a parse failure is returned as `none` (Go returns the error). -/
def normalizeURL (raw : String) : Option String :=
  match goParse raw with
  | none => none
  | some u => some (normKey u)

/-! ### A builder for well-formed absolute URLs

To quantify over "URL strings that differ only in ..." the URLs are
built from their components.  The validity predicates delimit the class
of inputs on which the net/url model is faithful (they match the
character validation net/url itself performs). -/

/-- An optional URL component introduced by a separator character
(query by `?`, fragment by `#`). -/
def optPart (pre : Char) : Option (List Char) → List Char
  | none => []
  | some l => pre :: l

/-- The userinfo part of an authority, ending in `@` when present. -/
def userPart : Option (List Char) → List Char
  | none => []
  | some u1 => u1 ++ ['@']

/-- An optional leading "www." on the host. -/
def wwwPart (www : Bool) : List Char := if www then wwwL else []

/-- The port part of an authority, starting with `:` when present. -/
def portPart : Option (List Char) → List Char
  | none => []
  | some p1 => ':' :: p1

/-- An optional single trailing slash on the path. -/
def slashPart (slash : Bool) : List Char := if slash then ['/'] else []

/-- A character allowed in a host of the modelled class. -/
def hostChar (c : Char) : Bool :=
  !(c = ':' || c = '@' || c = '/' || c = '?' || c = '#')

/-- A character allowed in a userinfo of the modelled class. -/
def userChar (c : Char) : Bool :=
  !(c = '/' || c = '?' || c = '#')

/-- A character allowed in a path of the modelled class. -/
def pathChar (c : Char) : Bool :=
  !(c = '?' || c = '#')

/-- Lift a character predicate to an optional component. -/
def optAll (p : Char → Bool) : Option (List Char) → Bool
  | none => true
  | some l => l.all p

/-- A path of the modelled class: empty, or starting with `/`, made of
path characters, and without a trailing slash (the optional trailing
slash is a separate builder argument). -/
def validPathB (path : List Char) : Bool :=
  path.isEmpty ||
    (path.head? = some '/' && path.all pathChar && path.getLast? != some '/')

/-- Build the URL string
scheme://[user@][www.]host[:port]path[/][?query][#fragment]. -/
def mkURL (scheme : List Char) (user : Option (List Char)) (www : Bool)
    (host : List Char) (port : Option (List Char)) (path : List Char)
    (slash : Bool) (query frag : Option (List Char)) : String :=
  String.mk (scheme ++ ':' :: '/' :: '/' ::
    (userPart user ++ wwwPart www ++ host ++ portPart port ++
     path ++ slashPart slash ++ optPart '?' query ++ optPart '#' frag))

/-! ### Registries

Go's maps `pages`, `externalLinks` and `hostErrors` are modelled as
association lists with distinct keys; all registry mutations in the
source happen under a mutex (or through atomics), so each operation is a
single atomic step of the run model. -/

/-- The model of a Go `map[string]int`. -/
abbrev AList := List (String × Nat)

/-- Map lookup, `m[k]` with its `ok` flag encoded as an `Option`. -/
def mapGet : AList → String → Option Nat
  | [], _ => none
  | (k, v) :: rest, key => if k = key then some v else mapGet rest key

/-- Map update `m[k] = v`: replaces the binding in place, appends a new
binding when the key is absent. -/
def mapSet : AList → String → Nat → AList
  | [], key, v => [(key, v)]
  | (k, w) :: rest, key, v =>
    if k = key then (k, v) :: rest else (k, w) :: mapSet rest key v

/-- Lookup defaulting to zero, the value a Go map read yields for a
missing key. -/
def getCount (m : AList) (k : String) : Nat := (mapGet m k).getD 0

/-- The keys of the map. -/
def keysOf (m : AList) : List String := m.map Prod.fst

/-- The Go statement `m[k]++`: increment, inserting 1 for a missing key. -/
def bump (m : AList) (k : String) : AList := mapSet m k (getCount m k + 1)

/-! ### Page registry: the two addPageVisit versions

src/crawl_page.go holds two versions of addPageVisit.  The early one
(lines 20-37) checks the page ceiling before the duplicate check; the
later one (lines 142-160, also src/unnamed/part_003) checks for a
duplicate first.  Both run under cfg.mu, hence are atomic.  Go's
`maxPages` field is an `int`, modelled as `Int`. -/

/-- addPageVisit of src/crawl_page.go lines 142-160 (duplicate check
first, then the ceiling check).  Returns the updated pages map together
with the pair (isFirst, exceedsLimit). -/
def addPageVisit (maxPages : Int) (pages : AList) (normalizedURL : String) :
    AList × Bool × Bool :=
  match mapGet pages normalizedURL with
  | some count => (mapSet pages normalizedURL (count + 1), false, false)
  | none =>
    if (pages.length : Int) ≥ maxPages then (pages, false, true)
    else (mapSet pages normalizedURL 1, true, false)

/-- addPageVisit of src/crawl_page.go lines 20-37 (page-ceiling check
before the duplicate check). -/
def addPageVisitCeilingFirst (maxPages : Int) (pages : AList) (normalizedURL : String) :
    AList × Bool × Bool :=
  if (pages.length : Int) ≥ maxPages then (pages, false, true)
  else
    match mapGet pages normalizedURL with
    | some count => (mapSet pages normalizedURL (count + 1), false, false)
    | none => (mapSet pages normalizedURL 1, true, false)

/-- A run of the page registry alone: fold addPageVisit over a sequence
of normalized URLs starting from the empty map. -/
def runPages (maxPages : Int) (keyseq : List String) : AList :=
  keyseq.foldl (fun m k => (addPageVisit maxPages m k).1) []

/-- The keys for which the successive addPageVisit calls of a registry
run return isFirst = true, in call order. -/
def firstsTrace (maxPages : Int) (m : AList) : List String → List String
  | [] => []
  | k :: rest =>
    let r := addPageVisit maxPages m k
    (if r.2.1 then [k] else []) ++ firstsTrace maxPages r.1 rest

/-! ### Host circuit breaker -/

/-- Failure threshold per host, constant maxErrorsPerHost of
src/crawl_page.go. -/
def maxErrorsPerHost : Nat := 10

/-- incrementHostError of src/crawl_page.go lines 163-172: lazily create
the counter and increment it. -/
def incrementHostError (hostErrors : AList) (host : String) : AList :=
  bump hostErrors host

/-- shouldSkipHost of src/crawl_page.go lines 174-183: tripped once the
counter for the host reaches maxErrorsPerHost; an absent counter means
not tripped. -/
def shouldSkipHost (hostErrors : AList) (host : String) : Bool :=
  match mapGet hostErrors host with
  | some c => decide (c ≥ maxErrorsPerHost)
  | none => false

/-! ### The crawl engine as a state machine

A run is a sequence of visit events, each the execution of one
crawlPage call (the version of src/crawl_page.go lines 222-343) on a raw
URL.  The concurrency-control channel, WaitGroup, statistics counters
and context cancellation do not affect the registries; the model is of
an uncancelled run.  Fetch outcomes (success after retries, or terminal
failure) are supplied by an environment.  A fetch initiation is recorded
in a trace as the pair (raw URL, normalized key). -/

/-- Static configuration of a run: the seed's hostname
(cfg.baseURL.Hostname()) and the page ceiling. -/
structure RunCfg where
  baseHost : String
  maxPages : Int

/-- Environment of a run: whether fetching a raw URL succeeds after the
retry mechanism. -/
structure Env where
  fetchOk : String → Bool

/-- The mutable shared state of a run, plus the ghost trace of initiated
fetches. -/
structure CrawlState where
  pages : AList
  externalLinks : AList
  hostErrors : AList
  fetches : List (String × String)
deriving DecidableEq, Repr

/-- The state at the start of a run: empty registries. -/
def initState : CrawlState := ⟨[], [], [], []⟩

/-- One crawlPage call (src/crawl_page.go lines 222-343) on a raw URL:
parse; circuit-breaker check; domain check with external-link tracking;
normalization; the atomic addPageVisit; then, first visits only, the
fetch (recorded in the trace), a failed fetch incrementing the host's
error counter.  Scheduling of discovered links creates further visit
events and is represented by the run's event sequence. -/
def crawlVisit (cfg : RunCfg) (env : Env) (s : CrawlState) (raw : String) : CrawlState :=
  match goParse raw with
  | none => s
  | some u =>
    let host := String.mk (goHostname u)
    if shouldSkipHost s.hostErrors host then s
    else if host ≠ cfg.baseHost then
      { s with externalLinks := bump s.externalLinks raw }
    else
      match normalizeURL raw with
      | none => { s with hostErrors := incrementHostError s.hostErrors host }
      | some nurl =>
        let r := addPageVisit cfg.maxPages s.pages nurl
        let s1 := { s with pages := r.1 }
        if r.2.2 then s1
        else if !r.2.1 then s1
        else
          let s2 := { s1 with fetches := s1.fetches ++ [(raw, nurl)] }
          if env.fetchOk raw then s2
          else { s2 with hostErrors := incrementHostError s2.hostErrors host }

/-- A run from a given state. -/
def crawlRunFrom (cfg : RunCfg) (env : Env) (s : CrawlState) (events : List String) :
    CrawlState :=
  events.foldl (crawlVisit cfg env) s

/-- A run from the initial empty state. -/
def crawlRun (cfg : RunCfg) (env : Env) (events : List String) : CrawlState :=
  crawlRunFrom cfg env initState events

/-- Number of fetches of a given normalized key in a fetch trace. -/
def countKeyFetch (fs : List (String × String)) (key : String) : Nat :=
  (fs.filter (fun p => p.2 = key)).length

/-- Number of occurrences of a string in an event sequence. -/
def countOccur (events : List String) (raw : String) : Nat :=
  (events.filter (fun e => e = raw)).length

/-! ### Retry executor and backoff

Durations are modelled in nanoseconds as naturals (Go's time.Duration is
an int64 count of nanoseconds; all delays involved are nonnegative).
CalculateBackoffDelay in src/unnamed/part_004 computes the multiplier
with float64 math.Pow; with the attempt clamped to 10 the multiplier is
at most 512 and every float64 value involved for the program's constants
(base 1e9 ns, cap 3e10 ns) is below 2^53, so the floating-point
computation is exact and equals the integer computation used here. -/

/-- Retry ceiling maxRetries of src/crawl_page.go. -/
def maxRetries : Nat := 3

/-- CalculateBackoffDelay of src/unnamed/part_004: zero for attempts at
most 0, otherwise baseDelay doubled attempt-1 times with the attempt
clamped to 10, capped at maxDelay. -/
def CalculateBackoffDelay (attempt : Int) (baseDelay maxDelay : Nat) : Nat :=
  if attempt ≤ 0 then 0
  else
    let a := if attempt > 10 then 10 else attempt
    let d := baseDelay * 2 ^ (a - 1).toNat
    if d > maxDelay then maxDelay else d

/-- Observable events of the retry executor: waiting for a backoff delay,
and invoking the wrapped operation. -/
inductive RetryEvent where
  | wait (d : Nat)
  | invoke
deriving DecidableEq, Repr

/-- Number of invocations in a retry trace. -/
def countInvokes : List RetryEvent → Nat
  | [] => 0
  | RetryEvent.invoke :: r => countInvokes r + 1
  | RetryEvent.wait _ :: r => countInvokes r

/-- The loop body of retryWithBackoff (src/crawl_page.go lines 196-219).
The operation is modelled by the error (`some e`) or success (`none`) of
its successive invocations; the loop waits before every attempt except
the first and never inspects the error it got.  Returns the event trace
and whether the operation eventually succeeded.  The context-cancellation
select is the uncancelled branch. -/
def retryLoop (op : Nat → Option String) (b m : Nat) : Nat → Nat → List RetryEvent × Bool
  | 0, _ => ([], false)
  | fuel + 1, attempt =>
    let pre : List RetryEvent :=
      if 0 < attempt then [RetryEvent.wait (CalculateBackoffDelay (attempt : Int) b m)] else []
    match op attempt with
    | none => (pre ++ [RetryEvent.invoke], true)
    | some _ =>
      let r := retryLoop op b m fuel (attempt + 1)
      (pre ++ RetryEvent.invoke :: r.1, r.2)

/-- retryWithBackoff of src/crawl_page.go: the loop for attempts 0
through maxRetries. -/
def retryWithBackoff (op : Nat → Option String) (b m : Nat) : List RetryEvent × Bool :=
  retryLoop op b m (maxRetries + 1) 0

/-- The expected retry trace for k invocations: an invocation, then for
each retry a wait with the backoff delay of that attempt followed by the
next invocation. -/
def expectedTrace (b m : Nat) : Nat → List RetryEvent
  | 0 => []
  | 1 => [RetryEvent.invoke]
  | k + 2 =>
    expectedTrace b m (k + 1) ++
      [RetryEvent.wait (CalculateBackoffDelay ((k + 1 : Nat) : Int) b m), RetryEvent.invoke]

/-! ### Fetcher error classification and the fetch retry loop -/

/-- Substring test on character lists, Go's strings.Contains. -/
def containsCL : List Char → List Char → Bool
  | [], sub => sub.isEmpty
  | x :: xs, sub => sub.isPrefixOf (x :: xs) || containsCL xs sub

/-- Network-level error fragments considered retryable,
src/unnamed/part_000 retryableErrors. -/
def retryableErrors : List (List Char) :=
  ["timeout".toList, "connection refused".toList, "connection reset".toList,
   "no such host".toList, "network unreachable".toList,
   "temporary failure".toList, "i/o timeout".toList]

/-- Retryable HTTP status fragments, src/unnamed/part_000
retryableHTTPCodes. -/
def retryableHTTPCodes : List (List Char) :=
  ["HTTP error 429".toList, "HTTP error 502".toList, "HTTP error 503".toList,
   "HTTP error 504".toList, "HTTP error 520".toList, "HTTP error 521".toList,
   "HTTP error 522".toList, "HTTP error 523".toList, "HTTP error 524".toList]

/-- isRetryableError of src/unnamed/part_000 lines 289-309: nil errors
are not retryable; otherwise the lowercased message is searched for the
network fragments and the message as-is for the HTTP status fragments. -/
def isRetryableError (err : Option String) : Bool :=
  match err with
  | none => false
  | some e =>
    retryableErrors.any (fun sub => containsCL (lowerCL e.toList) sub) ||
      retryableHTTPCodes.any (fun sub => containsCL e.toList sub)

/-- Retry ceiling maxHTTPRetries of src/unnamed/part_000. -/
def maxHTTPRetries : Nat := 3

/-- Outcome of getHTMLWithContext. -/
inductive FetchResult where
  | ok (body : String)
  | nonRetryable (e : String)
  | exhausted (e : String)
deriving DecidableEq, Repr

/-- The loop of getHTMLWithContext (src/unnamed/part_000 lines 189-224):
each attempt performs one HTTP request (modelled by its result); a
failure that is not retryable is surfaced immediately wrapped as a
non-retryable error; retryable failures consume further attempts until
they are exhausted.  Returns the number of requests performed together
with the outcome; backoff waits and the rate-limiting sleep do not
affect the outcome and are elided. -/
def getHTMLLoop (req : Nat → Except String String) :
    Nat → Nat → String → Nat × FetchResult
  | 0, _, lastErr => (0, FetchResult.exhausted lastErr)
  | fuel + 1, attempt, _ =>
    match req attempt with
    | Except.ok body => (1, FetchResult.ok body)
    | Except.error e =>
      if isRetryableError (some e) then
        let r := getHTMLLoop req fuel (attempt + 1) e
        (r.1 + 1, r.2)
      else (1, FetchResult.nonRetryable e)

/-- getHTMLWithContext of src/unnamed/part_000: the loop for attempts 0
through maxHTTPRetries. -/
def getHTMLWithContext (req : Nat → Except String String) : Nat × FetchResult :=
  getHTMLLoop req (maxHTTPRetries + 1) 0 ""

/-! ### Link extraction

The HTML document is modelled as the node tree the external parser
(golang.org/x/net/html) produces; resolution of references against the
base URL is modelled from net/url ResolveReference restricted to
absolute references and absolute-path references. -/

/-- A parsed HTML node. -/
inductive HNode where
  | elem (tag : String) (attrs : List (String × String)) (children : List HNode)
  | text (s : String)

/-- Rendering of a parsed URL, net/url URL.String restricted to the
modelled class. -/
def renderURL (u : GoURL) : String :=
  String.mk (u.scheme ++ ':' :: '/' :: '/' :: [] ++ u.host ++ u.path ++
    (match u.query with | none => [] | some q => '?' :: q) ++
    (match u.frag with | none => [] | some f => '#' :: f))

/-- Modelled from net/url Parse + ResolveReference + String, restricted:
an absolute reference resolves to itself; an absolute-path reference
resolves against the base's scheme and host; other relative forms are
outside the modelled class. -/
def resolveHref (base : GoURL) (href : String) : Option String :=
  match goParse href with
  | some _ => some href
  | none =>
    match href.toList with
    | '/' :: _ =>
      some (String.mk (base.scheme ++ ':' :: '/' :: '/' :: [] ++ base.host ++ href.toList))
    | _ => none

/-- The href handling of the anchor branch of getURLsFromHTML in
src/get_urls_from_html.go: every href attribute is processed (no break);
an empty href resolves to the base (an empty reference keeps the base's
path and query and drops its fragment); malformed or unmodelled hrefs
are skipped. -/
def hrefsV1 (base : GoURL) : List (String × String) → List String
  | [] => []
  | (k, v) :: rest =>
    (if k = "href" then
      (if v = "" then [renderURL { base with frag := none }]
       else
         match resolveHref base v with
         | some r => [r]
         | none => [])
     else []) ++ hrefsV1 base rest

mutual

/-- The recursive traversal of getURLsFromHTML in
src/get_urls_from_html.go: collect anchors in document order, no
deduplication, then recurse into children. -/
def collectV1 (base : GoURL) : HNode → List String
  | HNode.text _ => []
  | HNode.elem tag attrs children =>
    (if tag = "a" then hrefsV1 base attrs else []) ++ collectV1List base children

/-- Traversal of a child list for collectV1. -/
def collectV1List (base : GoURL) : List HNode → List String
  | [] => []
  | n :: rest => collectV1 base n ++ collectV1List base rest

end

/-- Per-page URL cap of the deduplicating extractor
(src/unnamed/part_007, src/extract_page_data.go). -/
def maxURLsPerPage : Nat := 1000

/-- Traversal depth cap of the deduplicating extractor. -/
def maxTraversalDepth : Nat := 50

/-- The skipped href forms of the deduplicating extractor: a bare
fragment and the mailto, tel, javascript and data pseudo-schemes. -/
def skipHref (h : List Char) : Bool :=
  decide (h = ['#']) || "mailto:".toList.isPrefixOf h || "tel:".toList.isPrefixOf h ||
    "javascript:".toList.isPrefixOf h || "data:".toList.isPrefixOf h

/-- ASCII approximation of Go strings.TrimSpace. -/
def trimSpaceCL (l : List Char) : List Char :=
  ((l.dropWhile Char.isWhitespace).reverse.dropWhile Char.isWhitespace).reverse

/-- Deduplicating append: add the URL only when unseen (the urlSet of the
deduplicating extractor, whose contents coincide with the result list). -/
def addIfNew (urls : List String) (u : String) : List String :=
  if u ∈ urls then urls else urls ++ [u]

mutual

/-- The traversal of getURLsFromHTML in src/unnamed/part_007 lines
19-107 (also src/extract_page_data.go): depth and page caps, only the
first href attribute of an anchor (break), trimmed hrefs, skipped
pseudo-schemes, and deduplication within the page. -/
def collectV7 (base : GoURL) : HNode → Nat → List String → List String
  | n, depth, urls =>
    if depth > maxTraversalDepth then urls
    else if urls.length ≥ maxURLsPerPage then urls
    else
      match n with
      | HNode.text _ => urls
      | HNode.elem tag attrs children =>
        let urls1 :=
          if tag = "a" then
            match attrs.find? (fun kv => kv.1 = "href") with
            | none => urls
            | some kv =>
              let h := trimSpaceCL kv.2.toList
              if h.isEmpty then addIfNew urls (renderURL base)
              else if skipHref h then urls
              else
                match resolveHref base (String.mk h) with
                | some r => addIfNew urls r
                | none => urls
          else urls
        collectV7List base children (depth + 1) urls1

/-- The child loop of the deduplicating traversal: the page cap is
rechecked before each child. -/
def collectV7List (base : GoURL) : List HNode → Nat → List String → List String
  | [], _, urls => urls
  | c :: rest, depth, urls =>
    if urls.length ≥ maxURLsPerPage then urls
    else collectV7List base rest depth (collectV7 base c depth urls)

end

/-- getURLsFromHTML of src/get_urls_from_html.go on a parsed document. -/
def getURLsFromHTMLKeepDup (base : GoURL) (doc : HNode) : List String :=
  collectV1 base doc

/-- getURLsFromHTML of src/unnamed/part_007 / src/extract_page_data.go
on a parsed document. -/
def getURLsFromHTMLDedup (base : GoURL) (doc : HNode) : List String :=
  collectV7 base doc 0 []

/-! ### The concrete scenario of the spec's extraction test

Seed https://x.com; the fetched page's body holds anchors /a, /b and a
duplicate /a.  The document tree is the one the external HTML parser
yields for that body.  Child pages contain no anchors, so the run's
event sequence is the seed visit followed by one visit per extracted
link. -/

/-- The parsed seed URL https://x.com. -/
def xBase : GoURL := ⟨"https".toList, "x.com".toList, [], none, none⟩

/-- The parsed scenario document: anchors /a, /b, /a. -/
def scenarioHTML : HNode :=
  HNode.elem "html" []
    [HNode.elem "body" []
      [HNode.elem "a" [("href", "/a")] [HNode.text "A"],
       HNode.elem "a" [("href", "/b")] [HNode.text "B"],
       HNode.elem "a" [("href", "/a")] [HNode.text "A again"]]]

/-- Run configuration of the scenario: seed host x.com, default page
ceiling 10 (src/main.go). -/
def scenarioCfg : RunCfg := ⟨"x.com", 10⟩

/-- Environment of the scenario: every fetch succeeds. -/
def scenarioEnv : Env := ⟨fun _ => true⟩

/-- The scenario run with the non-deduplicating extractor of
src/get_urls_from_html.go. -/
def scenarioRunKeepDup : CrawlState :=
  crawlRun scenarioCfg scenarioEnv
    ("https://x.com" :: getURLsFromHTMLKeepDup xBase scenarioHTML)

/-- The scenario run with the deduplicating extractor of
src/unnamed/part_007 / src/extract_page_data.go. -/
def scenarioRunDedup : CrawlState :=
  crawlRun scenarioCfg scenarioEnv
    ("https://x.com" :: getURLsFromHTMLDedup xBase scenarioHTML)

/-! ## Lemmas -/

/-! ### Splitting and trimming -/

theorem splitFirst_not_mem {c : Char} {l : List Char} (h : c ∉ l) :
    splitFirst c l = (l, none) := by
  induction l with
  | nil => rfl
  | cons x xs ih =>
    rw [List.mem_cons, not_or] at h
    have hx : ¬x = c := fun e => h.1 e.symm
    simp [splitFirst, hx, ih h.2]

theorem splitFirst_append {c : Char} {a : List Char} (b : List Char) (h : c ∉ a) :
    splitFirst c (a ++ b) = (a ++ (splitFirst c b).1, (splitFirst c b).2) := by
  induction a with
  | nil => simp
  | cons x xs ih =>
    rw [List.mem_cons, not_or] at h
    have hx : ¬x = c := fun e => h.1 e.symm
    simp [splitFirst, hx, ih h.2]

theorem splitFirst_cons_self (c : Char) (b : List Char) :
    splitFirst c (c :: b) = ([], some b) := by
  simp [splitFirst]

theorem splitFirst_mk {c : Char} {a : List Char} (b : List Char) (h : c ∉ a) :
    splitFirst c (a ++ c :: b) = (a, some b) := by
  rw [splitFirst_append _ h, splitFirst_cons_self]
  simp

theorem splitLast_not_mem {c : Char} {l : List Char} (h : c ∉ l) :
    splitLast c l = (l, none) := by
  have hr : c ∉ l.reverse := by simpa using h
  simp [splitLast, splitFirst_not_mem hr]

theorem splitLast_mk {c : Char} (u : List Char) {v : List Char} (hv : c ∉ v) :
    splitLast c (u ++ c :: v) = (u, some v) := by
  have hrev : (u ++ c :: v).reverse = v.reverse ++ c :: u.reverse := by simp
  have hvr : c ∉ v.reverse := by simpa using hv
  simp [splitLast, hrev, splitFirst_mk _ hvr]

theorem goTrimPre_append (pre l : List Char) : goTrimPre (pre ++ l) pre = l := by
  have h : pre.isPrefixOf (pre ++ l) = true := by
    simp [List.isPrefixOf_iff_prefix]
  simp [goTrimPre, h, List.drop_left]

theorem goTrimPre_of_no_pre {pre l : List Char} (h : pre.isPrefixOf l = false) :
    goTrimPre l pre = l := by
  simp [goTrimPre, h]

theorem goTrimSuf_append (l suf : List Char) : goTrimSuf (l ++ suf) suf = l := by
  have h : suf.isSuffixOf (l ++ suf) = true := by
    simp [List.isSuffixOf_iff_suffix]
  simp [goTrimSuf, h, List.take_left]

theorem isSuffixOf_singleton_eq_false {c : Char} {l : List Char}
    (h : l.getLast? ≠ some c) : [c].isSuffixOf l = false := by
  by_contra hne
  have hs : [c] <:+ l := by
    rw [← List.isSuffixOf_iff_suffix]
    exact eq_true_of_ne_false hne
  obtain ⟨t, rfl⟩ := hs
  exact h (List.getLast?_concat t)

theorem goTrimSuf_of_getLast {l : List Char} (h : l.getLast? ≠ some '/') :
    goTrimSuf l ['/'] = l := by
  simp [goTrimSuf, isSuffixOf_singleton_eq_false h]

/-! ### Membership helpers -/

theorem all_not_mem {p : Char → Bool} {l : List Char} (h : l.all p = true) {d : Char}
    (hd : p d = false) : d ∉ l := by
  intro hm
  have hpd := List.all_eq_true.mp h d hm
  rw [hd] at hpd
  exact Bool.false_ne_true hpd

theorem validScheme_not_mem {s : List Char} (h : validSchemeB s = true) {d : Char}
    (hda : d.isAlpha = false) (hds : isSchemeChar d = false) : d ∉ s := by
  cases s with
  | nil => simp
  | cons c cs =>
    rw [validSchemeB, Bool.and_eq_true] at h
    intro hm
    rcases List.mem_cons.mp hm with rfl | hm2
    · rw [hda] at h; exact Bool.false_ne_true h.1
    · exact all_not_mem h.2 hds hm2

theorem not_mem_userPart {user : Option (List Char)} (h : optAll userChar user = true)
    {d : Char} (hd : userChar d = false) (hda : d ≠ '@') : d ∉ userPart user := by
  cases user with
  | none => simp [userPart]
  | some u1 =>
    simp only [userPart, List.mem_append, not_or]
    exact ⟨all_not_mem h hd, by simpa using hda⟩

theorem not_mem_portPart {port : Option (List Char)} (h : optAll Char.isDigit port = true)
    {d : Char} (hd : d.isDigit = false) (hdc : d ≠ ':') : d ∉ portPart port := by
  cases port with
  | none => simp [portPart]
  | some p1 =>
    simp only [portPart, List.mem_cons, not_or]
    exact ⟨hdc, all_not_mem h hd⟩

theorem not_mem_wwwPart {www : Bool} {d : Char} (h : d ∉ wwwL) : d ∉ wwwPart www := by
  cases www
  · simp [wwwPart]
  · simpa [wwwPart] using h

theorem not_mem_optPart {pre : Char} {o : Option (List Char)} {d : Char}
    (h1 : d ≠ pre) (h2 : ∀ q, o = some q → d ∉ q) : d ∉ optPart pre o := by
  cases o with
  | none => simp [optPart]
  | some q =>
    simp only [optPart, List.mem_cons, not_or]
    exact ⟨h1, h2 q rfl⟩

theorem splitFirst_optPart {c : Char} {A : List Char} (o : Option (List Char)) (h : c ∉ A) :
    splitFirst c (A ++ optPart c o) = (A, o) := by
  cases o with
  | none => simp [optPart, splitFirst_not_mem h]
  | some f => simpa [optPart] using splitFirst_mk f h

/-! ### The parse of a built URL -/

theorem hostOf_eq (user : Option (List Char)) {rest : List Char} (h : '@' ∉ rest) :
    hostOf (userPart user ++ rest) = rest := by
  cases user with
  | none =>
    simp only [userPart, List.nil_append]
    simp [hostOf, splitLast_not_mem h]
  | some u1 =>
    have e : userPart (some u1) ++ rest = u1 ++ '@' :: rest := by simp [userPart]
    simp [hostOf, e, splitLast_mk u1 h]

theorem goParse_shape (sch auth fullpath : List Char) (query frag : Option (List Char))
    (hsch : validSchemeB sch = true)
    (ha1 : '#' ∉ auth) (ha2 : '?' ∉ auth) (ha3 : '/' ∉ auth)
    (hp1 : '#' ∉ fullpath) (hp2 : '?' ∉ fullpath)
    (hq : ∀ q, query = some q → '#' ∉ q)
    (hshape : fullpath = [] ∨ ∃ r, fullpath = '/' :: r) :
    goParse (String.mk (sch ++ ':' :: '/' :: '/' ::
        (auth ++ fullpath ++ optPart '?' query ++ optPart '#' frag))) =
      some ⟨lowerCL sch, hostOf auth, fullpath, query, frag⟩ := by
  have hs1 : '#' ∉ sch := validScheme_not_mem hsch (by decide) (by decide)
  have hs2 : ':' ∉ sch := validScheme_not_mem hsch (by decide) (by decide)
  have hqm : '#' ∉ optPart '?' query := not_mem_optPart (by decide) hq
  have ht : (String.mk (sch ++ ':' :: '/' :: '/' ::
      (auth ++ fullpath ++ optPart '?' query ++ optPart '#' frag))).toList =
      (sch ++ ':' :: '/' :: '/' :: (auth ++ (fullpath ++ optPart '?' query))) ++
        optPart '#' frag := by
    show sch ++ ':' :: '/' :: '/' ::
        (auth ++ fullpath ++ optPart '?' query ++ optPart '#' frag) = _
    simp [List.append_assoc]
  have hA1 : '#' ∉ sch ++ ':' :: '/' :: '/' :: (auth ++ (fullpath ++ optPart '?' query)) := by
    simp only [List.mem_append, List.mem_cons, not_or]
    exact ⟨hs1, by decide, by decide, by decide, ha1, hp1, hqm⟩
  have hA2 : '?' ∉ ('/' : Char) :: '/' :: (auth ++ fullpath) := by
    simp only [List.mem_cons, List.mem_append, not_or]
    exact ⟨by decide, by decide, ha2, hp2⟩
  have hR : ('/' : Char) :: '/' :: (auth ++ (fullpath ++ optPart '?' query)) =
      ('/' :: '/' :: (auth ++ fullpath)) ++ optPart '?' query := by
    simp [List.append_assoc]
  rw [goParse, ht, splitFirst_optPart frag hA1]
  rw [show splitFirst ':'
      ((sch ++ ':' :: '/' :: '/' :: (auth ++ (fullpath ++ optPart '?' query)), frag).1) =
      (sch, some ('/' :: '/' :: (auth ++ (fullpath ++ optPart '?' query)))) from
    splitFirst_mk _ hs2]
  simp only [hsch, if_true]
  rw [hR, splitFirst_optPart query hA2]
  rcases hshape with rfl | ⟨r, rfl⟩
  · simp [splitFirst_not_mem ha3]
  · simp [splitFirst_mk r ha3]

theorem validPathB_elim {path : List Char} (h : validPathB path = true) :
    path = [] ∨ (∃ r, path = '/' :: r) ∧ path.all pathChar = true ∧
      path.getLast? ≠ some '/' := by
  rw [validPathB, Bool.or_eq_true] at h
  rcases h with h | h
  · exact Or.inl (List.isEmpty_iff.mp h)
  · rw [Bool.and_eq_true, Bool.and_eq_true] at h
    refine Or.inr ⟨?_, h.1.2, ?_⟩
    · have h1 : path.head? = some '/' := by simpa using h.1.1
      cases path with
      | nil => simp at h1
      | cons a t =>
        simp only [List.head?_cons, Option.some.injEq] at h1
        exact ⟨t, by rw [h1]⟩
    · simpa using h.2

theorem goHostname_parts (sch : List Char) (www : Bool) (host : List Char)
    (port : Option (List Char)) (p : List Char) (q f : Option (List Char))
    (hhost : host.all hostChar = true) (hport : optAll Char.isDigit port = true) :
    goHostname ⟨sch, wwwPart www ++ host ++ portPart port, p, q, f⟩ =
      wwwPart www ++ host := by
  have hcolon : ':' ∉ wwwPart www ++ host := by
    simp only [List.mem_append, not_or]
    exact ⟨not_mem_wwwPart (by decide), all_not_mem hhost (by decide)⟩
  cases port with
  | none =>
    simp only [goHostname, portPart, List.append_nil]
    rw [splitFirst_not_mem hcolon]
  | some p1 =>
    simp only [goHostname, portPart]
    rw [splitFirst_mk p1 hcolon]

theorem goTrimPre_wwwPart {www : Bool} {host : List Char}
    (hwww : wwwL.isPrefixOf host = false) :
    goTrimPre (wwwPart www ++ host) wwwL = host := by
  cases www with
  | true => simpa [wwwPart] using goTrimPre_append wwwL host
  | false =>
    simp only [wwwPart, List.nil_append]
    simp only [Bool.false_eq_true, if_false]
    exact goTrimPre_of_no_pre hwww

theorem goTrimSuf_slashPart {path : List Char} (slash : Bool)
    (hl : path.getLast? ≠ some '/') :
    goTrimSuf (path ++ slashPart slash) ['/'] = path := by
  cases slash with
  | true => simpa [slashPart] using goTrimSuf_append path ['/']
  | false =>
    simp only [slashPart, Bool.false_eq_true, if_false, List.append_nil]
    exact goTrimSuf_of_getLast hl

/-- The key computed by normalizeURL on any URL of the modelled class:
the bare host followed by the path, independent of scheme, userinfo,
leading "www.", port, trailing slash, query and fragment. -/
theorem normalizeURL_mkURL (scheme : List Char) (user : Option (List Char)) (www : Bool)
    (host : List Char) (port : Option (List Char)) (path : List Char) (slash : Bool)
    (query frag : Option (List Char))
    (hsch : validSchemeB scheme = true)
    (huser : optAll userChar user = true)
    (hhost : host.all hostChar = true)
    (hwww : wwwL.isPrefixOf host = false)
    (hport : optAll Char.isDigit port = true)
    (hpath : validPathB path = true)
    (hq : optAll (fun c => !(c == '#')) query = true) :
    normalizeURL (mkURL scheme user www host port path slash query frag) =
      some (String.mk (host ++ path)) := by
  have hq' : ∀ q1, query = some q1 → '#' ∉ q1 := by
    intro q1 e
    subst e
    simp only [optAll] at hq
    exact all_not_mem hq (by decide)
  have ha1 : '#' ∉ userPart user ++ wwwPart www ++ host ++ portPart port := by
    simp only [List.mem_append, not_or]
    exact ⟨⟨⟨not_mem_userPart huser (by decide) (by decide), not_mem_wwwPart (by decide)⟩,
      all_not_mem hhost (by decide)⟩, not_mem_portPart hport (by decide) (by decide)⟩
  have ha2 : '?' ∉ userPart user ++ wwwPart www ++ host ++ portPart port := by
    simp only [List.mem_append, not_or]
    exact ⟨⟨⟨not_mem_userPart huser (by decide) (by decide), not_mem_wwwPart (by decide)⟩,
      all_not_mem hhost (by decide)⟩, not_mem_portPart hport (by decide) (by decide)⟩
  have ha3 : '/' ∉ userPart user ++ wwwPart www ++ host ++ portPart port := by
    simp only [List.mem_append, not_or]
    exact ⟨⟨⟨not_mem_userPart huser (by decide) (by decide), not_mem_wwwPart (by decide)⟩,
      all_not_mem hhost (by decide)⟩, not_mem_portPart hport (by decide) (by decide)⟩
  have hps : '#' ∉ path ∧ '?' ∉ path ∧ (path = [] ∨ ∃ r, path = '/' :: r) ∧
      path.getLast? ≠ some '/' := by
    rcases validPathB_elim hpath with rfl | ⟨hr, hpc, hpl⟩
    · exact ⟨by decide, by decide, Or.inl rfl, by decide⟩
    · exact ⟨all_not_mem hpc (by decide), all_not_mem hpc (by decide), Or.inr hr, hpl⟩
  obtain ⟨hpm1, hpm2, hpshape, hplast⟩ := hps
  have hsl1 : '#' ∉ slashPart slash := by cases slash <;> decide
  have hsl2 : '?' ∉ slashPart slash := by cases slash <;> decide
  have hf1 : '#' ∉ path ++ slashPart slash := by
    simp only [List.mem_append, not_or]
    exact ⟨hpm1, hsl1⟩
  have hf2 : '?' ∉ path ++ slashPart slash := by
    simp only [List.mem_append, not_or]
    exact ⟨hpm2, hsl2⟩
  have hfshape : path ++ slashPart slash = [] ∨ ∃ r, path ++ slashPart slash = '/' :: r := by
    rcases hpshape with rfl | ⟨r, rfl⟩
    · cases slash
      · exact Or.inl rfl
      · exact Or.inr ⟨[], rfl⟩
    · exact Or.inr ⟨r ++ slashPart slash, by simp⟩
  have eL : mkURL scheme user www host port path slash query frag =
      String.mk (scheme ++ ':' :: '/' :: '/' ::
        ((userPart user ++ wwwPart www ++ host ++ portPart port) ++
          (path ++ slashPart slash) ++ optPart '?' query ++ optPart '#' frag)) := by
    unfold mkURL
    congr 1
    simp [List.append_assoc]
  have hg := goParse_shape scheme (userPart user ++ wwwPart www ++ host ++ portPart port)
    (path ++ slashPart slash) query frag hsch ha1 ha2 ha3 hf1 hf2 hq' hfshape
  have hAt : '@' ∉ wwwPart www ++ host ++ portPart port := by
    simp only [List.mem_append, not_or]
    exact ⟨⟨not_mem_wwwPart (by decide), all_not_mem hhost (by decide)⟩,
      not_mem_portPart hport (by decide) (by decide)⟩
  have hHost : hostOf (userPart user ++ wwwPart www ++ host ++ portPart port) =
      wwwPart www ++ host ++ portPart port := by
    rw [show userPart user ++ wwwPart www ++ host ++ portPart port =
      userPart user ++ (wwwPart www ++ host ++ portPart port) from by
        simp [List.append_assoc]]
    exact hostOf_eq user hAt
  rw [eL]
  simp only [normalizeURL, normKey, hg, hHost]
  rw [goHostname_parts (lowerCL scheme) www host port _ _ _ hhost hport]
  rw [goTrimPre_wwwPart hwww, goTrimSuf_slashPart slash hplast]
  rcases hpshape with rfl | ⟨r, rfl⟩
  · simp
  · rfl

/-! ### Registry lemmas -/

theorem mapGet_mapSet_self (m : AList) (k : String) (v : Nat) :
    mapGet (mapSet m k v) k = some v := by
  induction m with
  | nil => simp [mapGet, mapSet]
  | cons kv rest ih =>
    obtain ⟨k1, v1⟩ := kv
    by_cases h : k1 = k
    · subst h; simp [mapGet, mapSet]
    · simp [mapGet, mapSet, h, ih]

theorem mapGet_mapSet_ne (m : AList) {k k2 : String} (h : k ≠ k2) (v : Nat) :
    mapGet (mapSet m k v) k2 = mapGet m k2 := by
  induction m with
  | nil => simp [mapGet, mapSet, h]
  | cons kv rest ih =>
    obtain ⟨k1, v1⟩ := kv
    by_cases h1 : k1 = k
    · subst h1; simp [mapGet, mapSet, h]
    · by_cases h2 : k1 = k2
      · subst h2; simp [mapGet, mapSet, h1]
      · simp [mapGet, mapSet, h1, h2, ih]

theorem keysOf_mapSet_of_mem {m : AList} {k : String} {c : Nat}
    (h : mapGet m k = some c) (v : Nat) : keysOf (mapSet m k v) = keysOf m := by
  induction m with
  | nil => simp [mapGet] at h
  | cons kv rest ih =>
    obtain ⟨k1, v1⟩ := kv
    by_cases h1 : k1 = k
    · subst h1; simp [mapSet, keysOf]
    · rw [mapGet, if_neg h1] at h
      simp only [mapSet, if_neg h1, keysOf, List.map_cons]
      have := ih h
      simp only [keysOf] at this
      rw [this]

theorem length_mapSet_of_mem {m : AList} {k : String} {c : Nat}
    (h : mapGet m k = some c) (v : Nat) : (mapSet m k v).length = m.length := by
  have h2 := congrArg List.length (keysOf_mapSet_of_mem h v)
  simpa [keysOf] using h2

theorem mapSet_of_get_none {m : AList} {k : String} (h : mapGet m k = none) (v : Nat) :
    mapSet m k v = m ++ [(k, v)] := by
  induction m with
  | nil => simp [mapSet]
  | cons kv rest ih =>
    obtain ⟨k1, v1⟩ := kv
    by_cases h1 : k1 = k
    · subst h1; simp [mapGet] at h
    · rw [mapGet, if_neg h1] at h
      simp [mapSet, h1, ih h]

theorem length_mapSet_of_get_none {m : AList} {k : String} (h : mapGet m k = none)
    (v : Nat) : (mapSet m k v).length = m.length + 1 := by
  simp [mapSet_of_get_none h v]

theorem mapGet_none_not_mem_keys {m : AList} {k : String} (h : mapGet m k = none) :
    k ∉ keysOf m := by
  induction m with
  | nil => simp [keysOf]
  | cons kv rest ih =>
    obtain ⟨k1, v1⟩ := kv
    by_cases h1 : k1 = k
    · subst h1; simp [mapGet] at h
    · rw [mapGet, if_neg h1] at h
      simp only [keysOf, List.map_cons, List.mem_cons, not_or]
      exact ⟨fun e => h1 e.symm, ih h⟩

theorem nodup_keysOf_mapSet {m : AList} (k : String) (v : Nat)
    (h : (keysOf m).Nodup) : (keysOf (mapSet m k v)).Nodup := by
  cases hm : mapGet m k with
  | some c => rw [keysOf_mapSet_of_mem hm]; exact h
  | none =>
    rw [mapSet_of_get_none hm]
    simp only [keysOf, List.map_append, List.map_cons, List.map_nil]
    rw [List.nodup_append]
    refine ⟨h, List.nodup_singleton k, ?_⟩
    intro a ha hb
    simp only [List.mem_singleton] at hb
    subst hb
    exact mapGet_none_not_mem_keys hm ha

theorem getCount_bump_self (m : AList) (k : String) :
    getCount (bump m k) k = getCount m k + 1 := by
  simp [bump, getCount, mapGet_mapSet_self]

theorem getCount_bump_other (m : AList) {k k2 : String} (h : k ≠ k2) :
    getCount (bump m k) k2 = getCount m k2 := by
  simp [bump, getCount, mapGet_mapSet_ne m h]

theorem getCount_bump_le (m : AList) (k k2 : String) :
    getCount m k2 ≤ getCount (bump m k) k2 := by
  by_cases h : k = k2
  · subst h; rw [getCount_bump_self]; omega
  · rw [getCount_bump_other m h]

/-! ### A generic invariant preservation principle for runs -/

theorem foldl_inv {σ α : Type} {P : σ → Prop} (f : σ → α → σ) (l : List α) (s : σ)
    (h0 : P s) (hstep : ∀ t a, P t → P (f t a)) : P (l.foldl f s) := by
  induction l generalizing s with
  | nil => exact h0
  | cons a rest ih => exact ih _ (hstep s a h0)

/-! ### The branches of one crawlPage call -/

theorem normalizeURL_eq_some {raw : String} {u : GoURL} (h : goParse raw = some u) :
    normalizeURL raw = some (normKey u) := by
  simp [normalizeURL, h]

theorem crawlVisit_parse_fail {cfg : RunCfg} {env : Env} {s : CrawlState} {raw : String}
    (h : goParse raw = none) : crawlVisit cfg env s raw = s := by
  simp [crawlVisit, h]

theorem crawlVisit_skip {cfg : RunCfg} {env : Env} {s : CrawlState} {raw : String}
    {u : GoURL} (hp : goParse raw = some u)
    (hsk : shouldSkipHost s.hostErrors (String.mk (goHostname u)) = true) :
    crawlVisit cfg env s raw = s := by
  simp [crawlVisit, hp, hsk]

theorem crawlVisit_external {cfg : RunCfg} {env : Env} {s : CrawlState} {raw : String}
    {u : GoURL} (hp : goParse raw = some u)
    (hsk : shouldSkipHost s.hostErrors (String.mk (goHostname u)) = false)
    (hdom : String.mk (goHostname u) ≠ cfg.baseHost) :
    crawlVisit cfg env s raw = { s with externalLinks := bump s.externalLinks raw } := by
  simp [crawlVisit, hp, hsk, hdom]

theorem crawlVisit_dup {cfg : RunCfg} {env : Env} {s : CrawlState} {raw : String}
    {u : GoURL} {c : Nat} (hp : goParse raw = some u)
    (hsk : shouldSkipHost s.hostErrors (String.mk (goHostname u)) = false)
    (hdom : String.mk (goHostname u) = cfg.baseHost)
    (hc : mapGet s.pages (normKey u) = some c) :
    crawlVisit cfg env s raw = { s with pages := mapSet s.pages (normKey u) (c + 1) } := by
  rw [hdom] at hsk
  simp [crawlVisit, hp, hsk, hdom, normalizeURL_eq_some hp, addPageVisit, hc]

theorem crawlVisit_ceiling {cfg : RunCfg} {env : Env} {s : CrawlState} {raw : String}
    {u : GoURL} (hp : goParse raw = some u)
    (hsk : shouldSkipHost s.hostErrors (String.mk (goHostname u)) = false)
    (hdom : String.mk (goHostname u) = cfg.baseHost)
    (hc : mapGet s.pages (normKey u) = none)
    (hlen : (s.pages.length : Int) ≥ cfg.maxPages) :
    crawlVisit cfg env s raw = s := by
  rw [hdom] at hsk
  simp [crawlVisit, hp, hsk, hdom, normalizeURL_eq_some hp, addPageVisit, hc, hlen]

theorem crawlVisit_fetch_ok {cfg : RunCfg} {env : Env} {s : CrawlState} {raw : String}
    {u : GoURL} (hp : goParse raw = some u)
    (hsk : shouldSkipHost s.hostErrors (String.mk (goHostname u)) = false)
    (hdom : String.mk (goHostname u) = cfg.baseHost)
    (hc : mapGet s.pages (normKey u) = none)
    (hlen : ¬(s.pages.length : Int) ≥ cfg.maxPages)
    (hok : env.fetchOk raw = true) :
    crawlVisit cfg env s raw =
      { s with pages := mapSet s.pages (normKey u) 1,
               fetches := s.fetches ++ [(raw, normKey u)] } := by
  rw [hdom] at hsk
  simp [crawlVisit, hp, hsk, hdom, normalizeURL_eq_some hp, addPageVisit, hc, hlen, hok]

theorem crawlVisit_fetch_fail {cfg : RunCfg} {env : Env} {s : CrawlState} {raw : String}
    {u : GoURL} (hp : goParse raw = some u)
    (hsk : shouldSkipHost s.hostErrors (String.mk (goHostname u)) = false)
    (hdom : String.mk (goHostname u) = cfg.baseHost)
    (hc : mapGet s.pages (normKey u) = none)
    (hlen : ¬(s.pages.length : Int) ≥ cfg.maxPages)
    (hok : env.fetchOk raw = false) :
    crawlVisit cfg env s raw =
      { s with pages := mapSet s.pages (normKey u) 1,
               hostErrors := incrementHostError s.hostErrors cfg.baseHost,
               fetches := s.fetches ++ [(raw, normKey u)] } := by
  rw [hdom] at hsk
  simp [crawlVisit, hp, hsk, hdom, normalizeURL_eq_some hp, addPageVisit, hc, hlen, hok]

/-! ### addPageVisit equations -/

theorem addPageVisit_get_some {maxPages : Int} {m : AList} {k : String} {c : Nat}
    (hc : mapGet m k = some c) :
    addPageVisit maxPages m k = (mapSet m k (c + 1), false, false) := by
  simp [addPageVisit, hc]

theorem addPageVisit_at_ceiling {maxPages : Int} {m : AList} {k : String}
    (hc : mapGet m k = none) (hl : (m.length : Int) ≥ maxPages) :
    addPageVisit maxPages m k = (m, false, true) := by
  simp [addPageVisit, hc, hl]

theorem addPageVisit_new {maxPages : Int} {m : AList} {k : String}
    (hc : mapGet m k = none) (hl : ¬(m.length : Int) ≥ maxPages) :
    addPageVisit maxPages m k = (mapSet m k 1, true, false) := by
  simp [addPageVisit, hc, hl]

/-! ## Claims -/

/-- C2: starting from the empty page registry, after any sequence of
addPageVisit calls the number of distinct registered keys never exceeds
maxPages (for maxPages ≥ 0); moreover addPageVisit never inserts a new
key once the registry holds at least maxPages entries. -/
theorem c2_pages_bounded (maxPages : Int) (keyseq : List String) (h : 0 ≤ maxPages) :
    ((runPages maxPages keyseq).length : Int) ≤ maxPages ∧
    (keysOf (runPages maxPages keyseq)).Nodup ∧
    (∀ (m : AList) (k : String), (m.length : Int) ≥ maxPages →
      keysOf ((addPageVisit maxPages m k).1) = keysOf m) := by
  have main : ((runPages maxPages keyseq).length : Int) ≤ maxPages ∧
      (keysOf (runPages maxPages keyseq)).Nodup := by
    refine foldl_inv (P := fun m : AList => ((m.length : Int) ≤ maxPages ∧ (keysOf m).Nodup))
      _ keyseq [] ⟨by simpa using h, by simp [keysOf]⟩ ?_
    intro t a hP
    obtain ⟨h1, h2⟩ := hP
    cases hc : mapGet t a with
    | some c =>
      rw [addPageVisit_get_some hc]
      exact ⟨by rw [length_mapSet_of_mem hc]; exact h1, nodup_keysOf_mapSet _ _ h2⟩
    | none =>
      by_cases hl : (t.length : Int) ≥ maxPages
      · rw [addPageVisit_at_ceiling hc hl]
        exact ⟨h1, h2⟩
      · rw [addPageVisit_new hc hl]
        refine ⟨?_, nodup_keysOf_mapSet _ _ h2⟩
        rw [length_mapSet_of_get_none hc]
        push_cast
        omega
  refine ⟨main.1, main.2, ?_⟩
  intro m k hge
  cases hc : mapGet m k with
  | some c => rw [addPageVisit_get_some hc]; exact keysOf_mapSet_of_mem hc _
  | none => rw [addPageVisit_at_ceiling hc hge]

/-- Witness for C2 at a concrete run: four visits with two duplicates
against a ceiling of 2 leave exactly two registered pages. -/
theorem c2_pages_bounded_witness :
    ((runPages 2 ["a", "b", "a", "c"]).length : Int) ≤ 2 ∧
    (keysOf (runPages 2 ["a", "b", "a", "c"])).Nodup ∧
    (∀ (m : AList) (k : String), (m.length : Int) ≥ 2 →
      keysOf ((addPageVisit 2 m k).1) = keysOf m) :=
  c2_pages_bounded 2 ["a", "b", "a", "c"] (by decide)

/-- C3 fails as stated: the claim asserts every addPageVisit call made
with len(pages) ≥ maxPages leaves the registry unchanged regardless of
whether the URL is already registered, but the duplicate-first version of
src/crawl_page.go lines 142-160 increments the count of an
already-registered URL even at the ceiling. -/
theorem c3_counterexample :
    ((([("a", 1)] : AList).length : Int) ≥ 1) ∧
    (addPageVisit 1 [("a", 1)] "a").1 ≠ [("a", 1)] := by
  constructor
  · decide
  · intro h
    have : mapGet (addPageVisit 1 [("a", 1)] "a").1 "a" = some 2 := by decide
    rw [h] at this
    simp [mapGet] at this

/-- C3 amended: at the ceiling, the ceiling-first version (lines 20-37)
never mutates the registry; the duplicate-first version (lines 142-160)
never mutates it when the URL is not yet registered, and for an
already-registered URL it increments that count in place without
inserting any key. -/
theorem c3_ceiling_no_mutation :
    (∀ (maxPages : Int) (m : AList) (k : String), (m.length : Int) ≥ maxPages →
      addPageVisitCeilingFirst maxPages m k = (m, false, true)) ∧
    (∀ (maxPages : Int) (m : AList) (k : String), (m.length : Int) ≥ maxPages →
      mapGet m k = none → addPageVisit maxPages m k = (m, false, true)) ∧
    (∀ (maxPages : Int) (m : AList) (k : String) (c : Nat), mapGet m k = some c →
      addPageVisit maxPages m k = (mapSet m k (c + 1), false, false) ∧
      keysOf (mapSet m k (c + 1)) = keysOf m) := by
  refine ⟨?_, ?_, ?_⟩
  · intro maxPages m k hge
    simp [addPageVisitCeilingFirst, hge]
  · intro maxPages m k hge hc
    exact addPageVisit_at_ceiling hc hge
  · intro maxPages m k c hc
    exact ⟨addPageVisit_get_some hc, keysOf_mapSet_of_mem hc _⟩

/-- Witness for the amended C3 at concrete registries at their ceiling. -/
theorem c3_ceiling_no_mutation_witness :
    addPageVisitCeilingFirst 1 [("a", 1)] "a" = ([("a", 1)], false, true) ∧
    addPageVisit 1 [("a", 1)] "b" = ([("a", 1)], false, true) ∧
    (addPageVisit 1 [("a", 1)] "a" = (mapSet [("a", 1)] "a" (1 + 1), false, false) ∧
      keysOf (mapSet [("a", 1)] "a" (1 + 1)) = keysOf [("a", 1)]) :=
  ⟨c3_ceiling_no_mutation.1 1 [("a", 1)] "a" (by decide),
   c3_ceiling_no_mutation.2.1 1 [("a", 1)] "b" (by decide) (by decide),
   c3_ceiling_no_mutation.2.2 1 [("a", 1)] "a" 1 (by decide)⟩

/-- C6: retryWithBackoff invokes the operation at most maxRetries + 1 = 4
times; its trace is an invocation followed by wait/invocation pairs, so
it waits before every retry and never before the first attempt, the wait
of retry number a being CalculateBackoffDelay a; and the computed delay
equals min(baseDelay * 2^(attempt-1), maxDelay) with the attempt clamped
to 10, and zero for attempts at most 0. -/
theorem c6_retry_trace (op : Nat → Option String) (b m : Nat) :
    (∃ k, 1 ≤ k ∧ k ≤ maxRetries + 1 ∧
      (retryWithBackoff op b m).1 = expectedTrace b m k ∧
      countInvokes (retryWithBackoff op b m).1 = k) ∧
    countInvokes (retryWithBackoff op b m).1 ≤ maxRetries + 1 ∧
    (∀ a : Int, a ≤ 0 → CalculateBackoffDelay a b m = 0) ∧
    (∀ a : Int, 0 < a → CalculateBackoffDelay a b m =
      min (b * 2 ^ (min a 10 - 1).toNat) m) := by
  have hdelay0 : ∀ a : Int, a ≤ 0 → CalculateBackoffDelay a b m = 0 := by
    intro a ha
    simp [CalculateBackoffDelay, ha]
  have hdelay : ∀ a : Int, 0 < a → CalculateBackoffDelay a b m =
      min (b * 2 ^ (min a 10 - 1).toNat) m := by
    intro a ha
    have hne : ¬a ≤ 0 := by omega
    have hClamp : (if a > 10 then 10 else a) = min a 10 := by
      by_cases h10 : a > 10
      · rw [if_pos h10, min_eq_right (by omega)]
      · rw [if_neg h10, min_eq_left (by omega)]
    simp only [CalculateBackoffDelay, if_neg hne, hClamp]
    generalize b * 2 ^ (min a 10 - 1).toNat = d
    by_cases hd : d > m
    · rw [if_pos hd]
      exact (min_eq_right (by omega)).symm
    · rw [if_neg hd]
      exact (min_eq_left (by omega)).symm
  have htr : ∃ k, 1 ≤ k ∧ k ≤ maxRetries + 1 ∧
      (retryWithBackoff op b m).1 = expectedTrace b m k ∧
      countInvokes (retryWithBackoff op b m).1 = k := by
    cases h0 : op 0 with
    | none =>
      exact ⟨1, by decide, by decide,
        by simp [retryWithBackoff, retryLoop, h0, maxRetries, expectedTrace],
        by simp [retryWithBackoff, retryLoop, h0, maxRetries, countInvokes]⟩
    | some e0 =>
      cases h1 : op 1 with
      | none =>
        exact ⟨2, by decide, by decide,
          by simp [retryWithBackoff, retryLoop, h0, h1, maxRetries, expectedTrace],
          by simp [retryWithBackoff, retryLoop, h0, h1, maxRetries, countInvokes]⟩
      | some e1 =>
        cases h2 : op 2 with
        | none =>
          exact ⟨3, by decide, by decide,
            by simp [retryWithBackoff, retryLoop, h0, h1, h2, maxRetries, expectedTrace],
            by simp [retryWithBackoff, retryLoop, h0, h1, h2, maxRetries, countInvokes]⟩
        | some e2 =>
          cases h3 : op 3 with
          | none =>
            exact ⟨4, by decide, by decide,
              by simp [retryWithBackoff, retryLoop, h0, h1, h2, h3, maxRetries,
                expectedTrace],
              by simp [retryWithBackoff, retryLoop, h0, h1, h2, h3, maxRetries,
                countInvokes]⟩
          | some e3 =>
            exact ⟨4, by decide, by decide,
              by simp [retryWithBackoff, retryLoop, h0, h1, h2, h3, maxRetries,
                expectedTrace],
              by simp [retryWithBackoff, retryLoop, h0, h1, h2, h3, maxRetries,
                countInvokes]⟩
  refine ⟨htr, ?_, hdelay0, hdelay⟩
  obtain ⟨k, _, hk2, _, hcount⟩ := htr
  rw [hcount]
  exact hk2

/-- Witness for C6 at a concrete operation and concrete delays. -/
theorem c6_retry_trace_witness :
    countInvokes (retryWithBackoff (fun _ => some "fail") 7 100).1 ≤ maxRetries + 1 ∧
    CalculateBackoffDelay (-5) 7 100 = 0 ∧
    CalculateBackoffDelay 3 7 100 = min (7 * 2 ^ ((min (3 : Int) 10 - 1).toNat)) 100 :=
  ⟨(c6_retry_trace (fun _ => some "fail") 7 100).2.1,
   (c6_retry_trace (fun _ => some "fail") 7 100).2.2.1 (-5) (by decide),
   (c6_retry_trace (fun _ => some "fail") 7 100).2.2.2 3 (by decide)⟩

/-- C5 fails as stated: retryWithBackoff never consults the retryability
classification, so an operation failing with a non-retryable error (here
the Fetcher's content-type rejection) is still invoked all 4 times
instead of being surfaced after the first attempt. -/
theorem c5_counterexample :
    isRetryableError (some "content-type is not HTML (got: text/plain) for URL x") =
      false ∧
    countInvokes (retryWithBackoff
      (fun _ => some "content-type is not HTML (got: text/plain) for URL x") 5 100).1 =
      4 ∧
    countInvokes (retryWithBackoff
      (fun _ => some "content-type is not HTML (got: text/plain) for URL x") 5 100).1 ≠
      1 := by
  exact ⟨by decide, by decide, by decide⟩

theorem getHTMLLoop_nonretryable (req : Nat → Except String String) :
    ∀ (j fuel attempt : Nat) (lastErr : String) (e : String), j < fuel →
    (∀ i, i < j → ∃ ei, req (attempt + i) = Except.error ei ∧
      isRetryableError (some ei) = true) →
    req (attempt + j) = Except.error e →
    isRetryableError (some e) = false →
    getHTMLLoop req fuel attempt lastErr = (j + 1, FetchResult.nonRetryable e) := by
  intro j
  induction j with
  | zero =>
    intro fuel attempt lastErr e hj hpre hke hne
    cases fuel with
    | zero => omega
    | succ f =>
      have hke' : req attempt = Except.error e := by simpa using hke
      simp [getHTMLLoop, hke', hne]
  | succ j ih =>
    intro fuel attempt lastErr e hj hpre hke hne
    cases fuel with
    | zero => omega
    | succ f =>
      obtain ⟨e0, he0, hr0⟩ := hpre 0 (by omega)
      have he0' : req attempt = Except.error e0 := by simpa using he0
      have hpre' : ∀ i, i < j → ∃ ei, req (attempt + 1 + i) = Except.error ei ∧
          isRetryableError (some ei) = true := by
        intro i hi
        have eq1 : attempt + 1 + i = attempt + (i + 1) := by omega
        rw [eq1]
        exact hpre (i + 1) (by omega)
      have hke2 : req (attempt + 1 + j) = Except.error e := by
        have eq2 : attempt + 1 + j = attempt + (j + 1) := by omega
        rw [eq2]
        exact hke
      have step := ih f (attempt + 1) e0 e (by omega) hpre' hke2 hne
      simp [getHTMLLoop, he0', hr0, step]

/-- C5 amended: retryWithBackoff itself retries every failure (see the
counterexample), and the immediate surfacing of non-retryable errors is
implemented inside the Fetcher: in getHTMLWithContext, when the attempts
before the k-th fail with retryable errors and the k-th attempt fails
with an error not classified retryable, exactly k + 1 requests are
performed and the failure is surfaced at once as non-retryable; only
retryable errors consume additional attempts. -/
theorem c5_nonretryable_immediate (req : Nat → Except String String) (k : Nat) (e : String)
    (hk : k ≤ maxHTTPRetries)
    (hpre : ∀ i, i < k → ∃ ei, req i = Except.error ei ∧
      isRetryableError (some ei) = true)
    (hke : req k = Except.error e)
    (hne : isRetryableError (some e) = false) :
    getHTMLWithContext req = (k + 1, FetchResult.nonRetryable e) := by
  have h := getHTMLLoop_nonretryable req k (maxHTTPRetries + 1) 0 "" e
    (by omega) (fun i hi => by simpa using hpre i hi) (by simpa using hke) hne
  simpa [getHTMLWithContext] using h

/-- Witness for the amended C5: a retryable timeout followed by a
non-retryable content-type rejection stops after the second request. -/
theorem c5_nonretryable_immediate_witness :
    getHTMLWithContext (fun i => if i = 0 then Except.error "some timeout happened"
      else Except.error "content-type is not HTML (got: x) for URL y") =
      (2, FetchResult.nonRetryable "content-type is not HTML (got: x) for URL y") := by
  have h := c5_nonretryable_immediate
    (fun i => if i = 0 then Except.error "some timeout happened"
      else Except.error "content-type is not HTML (got: x) for URL y")
    1 "content-type is not HTML (got: x) for URL y" (by decide)
    (fun i hi => by
      have hi0 : i = 0 := by omega
      subst hi0
      exact ⟨"some timeout happened", rfl, by decide⟩)
    rfl (by decide)
  simpa using h

/-- C4 fails as stated: normalizeURL preserves the case of the host
(net/url does not lowercase hosts, and the source does not either), so
https://EX.com/a/ keeps its uppercase key and differs from the claimed
common key ex.com/a; stripping exactly one "www." also separates hosts
that themselves begin with "www.". -/
theorem c4_counterexample :
    normalizeURL "https://EX.com/a/" = some "EX.com/a" ∧
    normalizeURL "http://www.ex.com/a" = some "ex.com/a" ∧
    ("EX.com/a" : String) ≠ "ex.com/a" ∧
    normalizeURL "https://www.x.com/a" = some "x.com/a" ∧
    normalizeURL "https://www.www.x.com/a" = some "www.x.com/a" :=
  ⟨by decide, by decide, by decide, by decide, by decide⟩

/-- C4 amended: for URLs differing only in scheme, a leading "www." on
the host, a single trailing slash, query or fragment, normalizeURL
succeeds on both and yields the same key: the host with the case
preserved (not lowercased) and one leading "www." stripped, concatenated
with the path minus one trailing slash; the root path collapses to the
host alone (the path component is empty).  Hosts that themselves begin
with "www." are outside the invariance. -/
theorem c4_normalize_invariance
    (scheme1 scheme2 : List Char) (www1 www2 slash1 slash2 : Bool)
    (q1 q2 f1 f2 : Option (List Char)) (host path : List Char)
    (hs1 : validSchemeB scheme1 = true) (hs2 : validSchemeB scheme2 = true)
    (hhost : host.all hostChar = true) (hwww : wwwL.isPrefixOf host = false)
    (hpath : validPathB path = true)
    (hq1 : optAll (fun c => !(c == '#')) q1 = true)
    (hq2 : optAll (fun c => !(c == '#')) q2 = true) :
    normalizeURL (mkURL scheme1 none www1 host none path slash1 q1 f1) =
      some (String.mk (host ++ path)) ∧
    normalizeURL (mkURL scheme2 none www2 host none path slash2 q2 f2) =
      some (String.mk (host ++ path)) :=
  ⟨normalizeURL_mkURL scheme1 none www1 host none path slash1 q1 f1
    hs1 (by decide) hhost hwww (by decide) hpath hq1,
   normalizeURL_mkURL scheme2 none www2 host none path slash2 q2 f2
    hs2 (by decide) hhost hwww (by decide) hpath hq2⟩

/-- Witness for the amended C4: https://ex.com/a/?x=1#frag and
http://www.ex.com/a normalize to the identical key ex.com/a. -/
theorem c4_normalize_invariance_witness :
    normalizeURL (mkURL "https".toList none false "ex.com".toList none "/a".toList true
      (some "x=1".toList) (some "frag".toList)) =
      some (String.mk ("ex.com".toList ++ "/a".toList)) ∧
    normalizeURL (mkURL "http".toList none true "ex.com".toList none "/a".toList false
      none none) =
      some (String.mk ("ex.com".toList ++ "/a".toList)) :=
  c4_normalize_invariance "https".toList "http".toList false true true false
    (some "x=1".toList) none (some "frag".toList) none "ex.com".toList "/a".toList
    (by decide) (by decide) (by decide) (by decide) (by decide) (by decide) (by decide)

/-- C10: normalizeURL discards the port and the userinfo in addition to
scheme, query and fragment: URLs of the modelled class that are
identical except for their port and userinfo normalize to the same key
host ++ path. -/
theorem c10_port_userinfo_discarded
    (scheme : List Char) (www : Bool) (user1 user2 port1 port2 : Option (List Char))
    (host path : List Char) (slash : Bool) (query frag : Option (List Char))
    (hs : validSchemeB scheme = true)
    (hu1 : optAll userChar user1 = true) (hu2 : optAll userChar user2 = true)
    (hhost : host.all hostChar = true) (hwww : wwwL.isPrefixOf host = false)
    (hp1 : optAll Char.isDigit port1 = true) (hp2 : optAll Char.isDigit port2 = true)
    (hpath : validPathB path = true)
    (hq : optAll (fun c => !(c == '#')) query = true) :
    normalizeURL (mkURL scheme user1 www host port1 path slash query frag) =
      some (String.mk (host ++ path)) ∧
    normalizeURL (mkURL scheme user2 www host port2 path slash query frag) =
      some (String.mk (host ++ path)) :=
  ⟨normalizeURL_mkURL scheme user1 www host port1 path slash query frag
    hs hu1 hhost hwww hp1 hpath hq,
   normalizeURL_mkURL scheme user2 www host port2 path slash query frag
    hs hu2 hhost hwww hp2 hpath hq⟩

/-- Witness for C10: https://u:p@example.com:8080/a and
https://example.com/a normalize to the identical key example.com/a. -/
theorem c10_port_userinfo_discarded_witness :
    (mkURL "https".toList (some "u:p".toList) false "example.com".toList
      (some "8080".toList) "/a".toList false none none =
      "https://u:p@example.com:8080/a") ∧
    normalizeURL (mkURL "https".toList (some "u:p".toList) false "example.com".toList
      (some "8080".toList) "/a".toList false none none) =
      some (String.mk ("example.com".toList ++ "/a".toList)) ∧
    normalizeURL (mkURL "https".toList none false "example.com".toList none
      "/a".toList false none none) =
      some (String.mk ("example.com".toList ++ "/a".toList)) :=
  ⟨by decide,
   (c10_port_userinfo_discarded "https".toList false (some "u:p".toList) none
      (some "8080".toList) none "example.com".toList "/a".toList false none none
      (by decide) (by decide) (by decide) (by decide) (by decide) (by decide) (by decide)
      (by decide) (by decide)).1,
   (c10_port_userinfo_discarded "https".toList false (some "u:p".toList) none
      (some "8080".toList) none "example.com".toList "/a".toList false none none
      (by decide) (by decide) (by decide) (by decide) (by decide) (by decide) (by decide)
      (by decide) (by decide)).2⟩

/-! ### Circuit-breaker lemmas -/

theorem shouldSkipHost_of_ge {he : AList} {h : String}
    (hge : maxErrorsPerHost ≤ getCount he h) : shouldSkipHost he h = true := by
  cases hm : mapGet he h with
  | none => rw [getCount, hm] at hge; simp [maxErrorsPerHost] at hge
  | some c =>
    rw [getCount, hm] at hge
    simp only [Option.getD_some] at hge
    simp [shouldSkipHost, hm, hge]

theorem ge_of_shouldSkipHost {he : AList} {h : String}
    (hs : shouldSkipHost he h = true) : maxErrorsPerHost ≤ getCount he h := by
  cases hm : mapGet he h with
  | none => rw [shouldSkipHost, hm] at hs; cases hs
  | some c =>
    rw [shouldSkipHost, hm, decide_eq_true_eq] at hs
    rw [getCount, hm]
    simpa using hs

theorem shouldSkipHost_eq_false_of_lt {he : AList} {h : String}
    (hlt : getCount he h < maxErrorsPerHost) : shouldSkipHost he h = false := by
  cases hm : mapGet he h with
  | none => simp [shouldSkipHost, hm]
  | some c =>
    rw [getCount, hm] at hlt
    simp only [Option.getD_some] at hlt
    simp only [shouldSkipHost, hm, decide_eq_false_iff_not]
    omega

theorem hostErrors_getCount_step_le (cfg : RunCfg) (env : Env) (s : CrawlState)
    (raw : String) (h : String) :
    getCount s.hostErrors h ≤ getCount (crawlVisit cfg env s raw).hostErrors h := by
  cases hp : goParse raw with
  | none => rw [crawlVisit_parse_fail hp]
  | some u =>
    cases hsk : shouldSkipHost s.hostErrors (String.mk (goHostname u)) with
    | true => rw [crawlVisit_skip hp hsk]
    | false =>
      by_cases hdom : String.mk (goHostname u) = cfg.baseHost
      · cases hc : mapGet s.pages (normKey u) with
        | some c =>
          rw [crawlVisit_dup hp hsk hdom hc]
        | none =>
          by_cases hlen : (s.pages.length : Int) ≥ cfg.maxPages
          · rw [crawlVisit_ceiling hp hsk hdom hc hlen]
          · cases hok : env.fetchOk raw with
            | true => rw [crawlVisit_fetch_ok hp hsk hdom hc hlen hok]
            | false =>
              rw [crawlVisit_fetch_fail hp hsk hdom hc hlen hok]
              simpa [incrementHostError] using
                getCount_bump_le s.hostErrors cfg.baseHost h
      · rw [crawlVisit_external hp hsk hdom]

/-- C7: once a host's failure counter reaches the threshold
maxErrorsPerHost = 10, shouldSkipHost reports the host as tripped; the
counter never decreases over any continuation of the run, so a tripped
host stays tripped; and a crawlPage visit of a URL on a tripped host
returns with the state unchanged, in particular without initiating any
fetch. -/
theorem c7_host_tripped_forever (cfg : RunCfg) (env : Env) (s : CrawlState)
    (events : List String) (host : String) :
    (maxErrorsPerHost ≤ getCount s.hostErrors host →
      shouldSkipHost s.hostErrors host = true) ∧
    getCount s.hostErrors host ≤
      getCount (crawlRunFrom cfg env s events).hostErrors host ∧
    (shouldSkipHost s.hostErrors host = true →
      shouldSkipHost (crawlRunFrom cfg env s events).hostErrors host = true) ∧
    (∀ raw u, goParse raw = some u → String.mk (goHostname u) = host →
      shouldSkipHost s.hostErrors host = true → crawlVisit cfg env s raw = s) := by
  have mono : getCount s.hostErrors host ≤
      getCount (crawlRunFrom cfg env s events).hostErrors host := by
    refine foldl_inv
      (P := fun t : CrawlState => getCount s.hostErrors host ≤ getCount t.hostErrors host)
      _ events s (le_refl _) ?_
    intro t a ht
    exact le_trans ht (hostErrors_getCount_step_le cfg env t a host)
  refine ⟨fun hge => shouldSkipHost_of_ge hge, mono, ?_, ?_⟩
  · intro hsk
    exact shouldSkipHost_of_ge (le_trans (ge_of_shouldSkipHost hsk) mono)
  · intro raw u hp hh hsk
    refine crawlVisit_skip hp ?_
    rw [hh]
    exact hsk

/-- Witness for C7: a host with 10 recorded failures is tripped and a
visit of a URL on it leaves the state unchanged. -/
theorem c7_host_tripped_forever_witness :
    shouldSkipHost (⟨[], [], [("h.com", 10)], []⟩ : CrawlState).hostErrors "h.com" =
      true ∧
    crawlVisit ⟨"x.com", 5⟩ ⟨fun _ => true⟩ ⟨[], [], [("h.com", 10)], []⟩
      "https://h.com/p" = ⟨[], [], [("h.com", 10)], []⟩ :=
  ⟨(c7_host_tripped_forever ⟨"x.com", 5⟩ ⟨fun _ => true⟩ ⟨[], [], [("h.com", 10)], []⟩
      ["https://h.com/p"] "h.com").1 (by decide),
   (c7_host_tripped_forever ⟨"x.com", 5⟩ ⟨fun _ => true⟩ ⟨[], [], [("h.com", 10)], []⟩
      ["https://h.com/p"] "h.com").2.2.2 "https://h.com/p"
      ⟨"https".toList, "h.com".toList, "/p".toList, none, none⟩ (by decide) (by decide)
      ((c7_host_tripped_forever ⟨"x.com", 5⟩ ⟨fun _ => true⟩ ⟨[], [], [("h.com", 10)], []⟩
        ["https://h.com/p"] "h.com").1 (by decide))⟩

/-! ### External-link lemmas -/

theorem hostErrors_only_base (cfg : RunCfg) (env : Env) {s : CrawlState} (raw : String)
    (hinv : ∀ h2, h2 ≠ cfg.baseHost → getCount s.hostErrors h2 = 0) :
    ∀ h2, h2 ≠ cfg.baseHost → getCount (crawlVisit cfg env s raw).hostErrors h2 = 0 := by
  intro h2 hne
  cases hp : goParse raw with
  | none => rw [crawlVisit_parse_fail hp]; exact hinv h2 hne
  | some u =>
    cases hsk : shouldSkipHost s.hostErrors (String.mk (goHostname u)) with
    | true => rw [crawlVisit_skip hp hsk]; exact hinv h2 hne
    | false =>
      by_cases hdom : String.mk (goHostname u) = cfg.baseHost
      · cases hc : mapGet s.pages (normKey u) with
        | some c => rw [crawlVisit_dup hp hsk hdom hc]; exact hinv h2 hne
        | none =>
          by_cases hlen : (s.pages.length : Int) ≥ cfg.maxPages
          · rw [crawlVisit_ceiling hp hsk hdom hc hlen]; exact hinv h2 hne
          · cases hok : env.fetchOk raw with
            | true => rw [crawlVisit_fetch_ok hp hsk hdom hc hlen hok]; exact hinv h2 hne
            | false =>
              rw [crawlVisit_fetch_fail hp hsk hdom hc hlen hok]
              show getCount (incrementHostError s.hostErrors cfg.baseHost) h2 = 0
              rw [incrementHostError, getCount_bump_other _ (fun e => hne e.symm)]
              exact hinv h2 hne
      · rw [crawlVisit_external hp hsk hdom]; exact hinv h2 hne

theorem externalLinks_step_other (cfg : RunCfg) (env : Env) (s : CrawlState)
    {e raw : String} (hne : e ≠ raw) :
    getCount (crawlVisit cfg env s e).externalLinks raw =
      getCount s.externalLinks raw := by
  cases hp : goParse e with
  | none => rw [crawlVisit_parse_fail hp]
  | some u =>
    cases hsk : shouldSkipHost s.hostErrors (String.mk (goHostname u)) with
    | true => rw [crawlVisit_skip hp hsk]
    | false =>
      by_cases hdom : String.mk (goHostname u) = cfg.baseHost
      · cases hc : mapGet s.pages (normKey u) with
        | some c => rw [crawlVisit_dup hp hsk hdom hc]
        | none =>
          by_cases hlen : (s.pages.length : Int) ≥ cfg.maxPages
          · rw [crawlVisit_ceiling hp hsk hdom hc hlen]
          · cases hok : env.fetchOk e with
            | true => rw [crawlVisit_fetch_ok hp hsk hdom hc hlen hok]
            | false => rw [crawlVisit_fetch_fail hp hsk hdom hc hlen hok]
      · rw [crawlVisit_external hp hsk hdom]
        exact getCount_bump_other _ hne

theorem externalLinks_count_run (cfg : RunCfg) (env : Env) (events : List String)
    (raw : String) (u : GoURL) (hp : goParse raw = some u)
    (hext : String.mk (goHostname u) ≠ cfg.baseHost) :
    ∀ s : CrawlState, (∀ h2, h2 ≠ cfg.baseHost → getCount s.hostErrors h2 = 0) →
    getCount (crawlRunFrom cfg env s events).externalLinks raw =
      getCount s.externalLinks raw + countOccur events raw := by
  induction events with
  | nil =>
    intro s _
    simp [crawlRunFrom, countOccur]
  | cons e rest ih =>
    intro s hinv
    have hinv' := hostErrors_only_base cfg env e hinv
    rw [show crawlRunFrom cfg env s (e :: rest) =
      crawlRunFrom cfg env (crawlVisit cfg env s e) rest from rfl]
    by_cases he : e = raw
    · subst he
      have hskip : shouldSkipHost s.hostErrors (String.mk (goHostname u)) = false := by
        refine shouldSkipHost_eq_false_of_lt ?_
        rw [hinv _ hext]
        decide
      rw [ih _ hinv']
      rw [crawlVisit_external hp hskip hext]
      show getCount (bump s.externalLinks e) e + countOccur rest e =
        getCount s.externalLinks e + countOccur (e :: rest) e
      rw [getCount_bump_self]
      simp [countOccur]
      omega
    · rw [ih _ hinv', externalLinks_step_other cfg env s he]
      have : countOccur (e :: rest) raw = countOccur rest raw := by
        simp [countOccur, he]
      rw [this]

theorem fetches_in_domain_step (cfg : RunCfg) (env : Env) (s : CrawlState) (raw : String)
    (hs : ∀ p ∈ s.fetches, ∃ u2, goParse p.1 = some u2 ∧
      String.mk (goHostname u2) = cfg.baseHost) :
    ∀ p ∈ (crawlVisit cfg env s raw).fetches, ∃ u2, goParse p.1 = some u2 ∧
      String.mk (goHostname u2) = cfg.baseHost := by
  cases hp : goParse raw with
  | none => rw [crawlVisit_parse_fail hp]; exact hs
  | some u =>
    cases hsk : shouldSkipHost s.hostErrors (String.mk (goHostname u)) with
    | true => rw [crawlVisit_skip hp hsk]; exact hs
    | false =>
      by_cases hdom : String.mk (goHostname u) = cfg.baseHost
      · cases hc : mapGet s.pages (normKey u) with
        | some c => rw [crawlVisit_dup hp hsk hdom hc]; exact hs
        | none =>
          by_cases hlen : (s.pages.length : Int) ≥ cfg.maxPages
          · rw [crawlVisit_ceiling hp hsk hdom hc hlen]; exact hs
          · have hnew : ∀ p ∈ s.fetches ++ [(raw, normKey u)], ∃ u2,
                goParse p.1 = some u2 ∧ String.mk (goHostname u2) = cfg.baseHost := by
              intro p hm
              rcases List.mem_append.mp hm with hm1 | hm1
              · exact hs p hm1
              · rw [List.mem_singleton] at hm1
                subst hm1
                exact ⟨u, hp, hdom⟩
            cases hok : env.fetchOk raw with
            | true => rw [crawlVisit_fetch_ok hp hsk hdom hc hlen hok]; exact hnew
            | false => rw [crawlVisit_fetch_fail hp hsk hdom hc hlen hok]; exact hnew
      · rw [crawlVisit_external hp hsk hdom]; exact hs

theorem external_step_pages (cfg : RunCfg) (env : Env) (s : CrawlState) {raw : String}
    {u : GoURL} (hp : goParse raw = some u)
    (hext : String.mk (goHostname u) ≠ cfg.baseHost) :
    (crawlVisit cfg env s raw).pages = s.pages ∧
    (crawlVisit cfg env s raw).fetches = s.fetches := by
  cases hsk : shouldSkipHost s.hostErrors (String.mk (goHostname u)) with
  | true => rw [crawlVisit_skip hp hsk]; exact ⟨rfl, rfl⟩
  | false => rw [crawlVisit_external hp hsk hext]; exact ⟨rfl, rfl⟩

/-- C8: for an external URL (one that parses and whose hostname differs
from the seed host), at the end of any run from the empty state the
external-link count recorded under the exact raw string equals the
number of visits of that exact string; any single visit of an external
URL leaves the page registry and the fetch trace unchanged; and every
fetch ever initiated in a run is of a URL on the seed host, so external
URLs are never fetched. -/
theorem c8_external_never_fetched (cfg : RunCfg) (env : Env) (events : List String)
    (raw : String) (u : GoURL) (hp : goParse raw = some u)
    (hext : String.mk (goHostname u) ≠ cfg.baseHost) :
    getCount (crawlRun cfg env events).externalLinks raw = countOccur events raw ∧
    (∀ s : CrawlState, (crawlVisit cfg env s raw).pages = s.pages ∧
      (crawlVisit cfg env s raw).fetches = s.fetches) ∧
    (∀ p ∈ (crawlRun cfg env events).fetches, ∃ u2, goParse p.1 = some u2 ∧
      String.mk (goHostname u2) = cfg.baseHost) := by
  refine ⟨?_, fun s => external_step_pages cfg env s hp hext, ?_⟩
  · have h := externalLinks_count_run cfg env events raw u hp hext initState
      (fun h2 _ => by simp [initState, getCount, mapGet])
    rw [crawlRun] at *
    rw [h]
    simp [initState, getCount, mapGet]
  · refine foldl_inv (P := fun t : CrawlState => ∀ p ∈ t.fetches, ∃ u2,
      goParse p.1 = some u2 ∧ String.mk (goHostname u2) = cfg.baseHost)
      _ events initState ?_ ?_
    · intro p hm
      simp [initState] at hm
    · intro t a ht
      exact fetches_in_domain_step cfg env t a ht

/-- Witness for C8: two visits of the same external URL from the seed
x.com record count 2 for its exact string. -/
theorem c8_external_never_fetched_witness :
    getCount (crawlRun ⟨"x.com", 5⟩ ⟨fun _ => true⟩
      ["https://ext.com/p", "https://ext.com/p"]).externalLinks "https://ext.com/p" =
      countOccur ["https://ext.com/p", "https://ext.com/p"] "https://ext.com/p" ∧
    countOccur ["https://ext.com/p", "https://ext.com/p"] "https://ext.com/p" = 2 :=
  ⟨(c8_external_never_fetched ⟨"x.com", 5⟩ ⟨fun _ => true⟩
      ["https://ext.com/p", "https://ext.com/p"] "https://ext.com/p"
      ⟨"https".toList, "ext.com".toList, "/p".toList, none, none⟩
      (by decide) (by decide)).1,
   by decide⟩

/-! ### Fetch-once lemmas -/

theorem countKeyFetch_append_single (fs : List (String × String)) (raw nkey key : String) :
    countKeyFetch (fs ++ [(raw, nkey)]) key =
      countKeyFetch fs key + (if nkey = key then 1 else 0) := by
  by_cases h : nkey = key
  · subst h
    simp [countKeyFetch, List.filter_append]
  · simp [countKeyFetch, List.filter_append, h]

theorem countOccur_append (a b : List String) (k : String) :
    countOccur (a ++ b) k = countOccur a k + countOccur b k := by
  simp [countOccur, List.filter_append]

theorem countOccur_eq_zero_of_not_mem {l : List String} {k : String} (h : k ∉ l) :
    countOccur l k = 0 := by
  induction l with
  | nil => simp [countOccur]
  | cons x xs ih =>
    rw [List.mem_cons, not_or] at h
    have hx : ¬x = k := fun e => h.1 e.symm
    simp [countOccur, hx]
    simpa [countOccur] using ih h.2

theorem mapGet_addPageVisit_other {maxPages : Int} {m : AList} {k1 k : String}
    (hk : k1 ≠ k) : mapGet (addPageVisit maxPages m k1).1 k = mapGet m k := by
  cases hc1 : mapGet m k1 with
  | some c1 => rw [addPageVisit_get_some hc1]; exact mapGet_mapSet_ne _ hk _
  | none =>
    by_cases hlen : (m.length : Int) ≥ maxPages
    · rw [addPageVisit_at_ceiling hc1 hlen]
    · rw [addPageVisit_new hc1 hlen]; exact mapGet_mapSet_ne _ hk _

theorem not_mem_firstsTrace (maxPages : Int) (l : List String) (k : String) :
    ∀ (m : AList) (c : Nat), mapGet m k = some c → k ∉ firstsTrace maxPages m l := by
  induction l with
  | nil =>
    intro m c _
    simp [firstsTrace]
  | cons k1 rest ih =>
    intro m c hm
    simp only [firstsTrace, List.mem_append, not_or]
    constructor
    · by_cases hk : k1 = k
      · subst hk
        simp [addPageVisit_get_some hm]
      · intro hmem
        by_cases hb : (addPageVisit maxPages m k1).2.1 = true
        · rw [if_pos hb] at hmem
          rw [List.mem_singleton] at hmem
          exact hk hmem.symm
        · rw [if_neg hb] at hmem
          simp at hmem
    · by_cases hk : k1 = k
      · subst hk
        refine ih _ (c + 1) ?_
        rw [addPageVisit_get_some hm]
        exact mapGet_mapSet_self _ _ _
      · refine ih _ c ?_
        rw [mapGet_addPageVisit_other hk]
        exact hm

theorem countOccur_firstsTrace_le_one (maxPages : Int) (l : List String) (k : String) :
    ∀ m : AList, countOccur (firstsTrace maxPages m l) k ≤ 1 := by
  induction l with
  | nil =>
    intro m
    simp [firstsTrace, countOccur]
  | cons k1 rest ih =>
    intro m
    simp only [firstsTrace]
    rw [countOccur_append]
    by_cases hk : k1 = k
    · subst hk
      cases hc : mapGet m k1 with
      | some c =>
        rw [addPageVisit_get_some hc]
        simpa [countOccur] using ih (mapSet m k1 (c + 1))
      | none =>
        by_cases hlen : (m.length : Int) ≥ maxPages
        · rw [addPageVisit_at_ceiling hc hlen]
          simpa [countOccur] using ih m
        · rw [addPageVisit_new hc hlen]
          have hzero : countOccur (firstsTrace maxPages (mapSet m k1 1) rest) k1 = 0 :=
            countOccur_eq_zero_of_not_mem
              (not_mem_firstsTrace maxPages rest k1 _ 1 (mapGet_mapSet_self _ _ _))
          rw [hzero]
          simp [countOccur]
    · have h0 : countOccur (if (addPageVisit maxPages m k1).2.1 = true
          then [k1] else []) k = 0 := by
        by_cases hb : (addPageVisit maxPages m k1).2.1 = true
        · rw [if_pos hb]
          simp [countOccur, hk]
        · rw [if_neg hb]
          simp [countOccur]
      calc countOccur (if (addPageVisit maxPages m k1).2.1 = true then [k1] else []) k +
            countOccur (firstsTrace maxPages (addPageVisit maxPages m k1).1 rest) k
          = countOccur (firstsTrace maxPages (addPageVisit maxPages m k1).1 rest) k := by
            rw [h0]; omega
        _ ≤ 1 := ih _

theorem c1_inv_step (cfg : RunCfg) (env : Env) (s : CrawlState) (raw : String)
    (hInv : ∀ key, countKeyFetch s.fetches key ≤ 1 ∧
      (1 ≤ countKeyFetch s.fetches key → ∃ c, mapGet s.pages key = some c)) :
    ∀ key, countKeyFetch (crawlVisit cfg env s raw).fetches key ≤ 1 ∧
      (1 ≤ countKeyFetch (crawlVisit cfg env s raw).fetches key →
        ∃ c, mapGet (crawlVisit cfg env s raw).pages key = some c) := by
  intro key
  cases hp : goParse raw with
  | none => rw [crawlVisit_parse_fail hp]; exact hInv key
  | some u =>
    cases hsk : shouldSkipHost s.hostErrors (String.mk (goHostname u)) with
    | true => rw [crawlVisit_skip hp hsk]; exact hInv key
    | false =>
      by_cases hdom : String.mk (goHostname u) = cfg.baseHost
      · cases hc : mapGet s.pages (normKey u) with
        | some c =>
          rw [crawlVisit_dup hp hsk hdom hc]
          refine ⟨(hInv key).1, fun h1 => ?_⟩
          show ∃ c2, mapGet (mapSet s.pages (normKey u) (c + 1)) key = some c2
          by_cases hkey : normKey u = key
          · subst hkey
            exact ⟨c + 1, mapGet_mapSet_self _ _ _⟩
          · obtain ⟨c0, hc0⟩ := (hInv key).2 h1
            exact ⟨c0, by rw [mapGet_mapSet_ne _ hkey]; exact hc0⟩
        | none =>
          by_cases hlen : (s.pages.length : Int) ≥ cfg.maxPages
          · rw [crawlVisit_ceiling hp hsk hdom hc hlen]; exact hInv key
          · have hzero : countKeyFetch s.fetches (normKey u) = 0 := by
              by_contra hnz
              obtain ⟨c0, hc0⟩ := (hInv (normKey u)).2 (by omega)
              rw [hc] at hc0
              cases hc0
            have hfe : ∀ t : CrawlState,
                t.fetches = s.fetches ++ [(raw, normKey u)] →
                t.pages = mapSet s.pages (normKey u) 1 →
                countKeyFetch t.fetches key ≤ 1 ∧
                (1 ≤ countKeyFetch t.fetches key →
                  ∃ c, mapGet t.pages key = some c) := by
              intro t hft hpt
              rw [hft, hpt, countKeyFetch_append_single]
              by_cases hkey : normKey u = key
              · subst hkey
                rw [hzero]
                exact ⟨by simp, fun _ => ⟨1, mapGet_mapSet_self _ _ _⟩⟩
              · rw [if_neg hkey]
                refine ⟨by have := (hInv key).1; omega, fun h1 => ?_⟩
                obtain ⟨c0, hc0⟩ := (hInv key).2 (by omega)
                exact ⟨c0, by rw [mapGet_mapSet_ne _ hkey]; exact hc0⟩
            cases hok : env.fetchOk raw with
            | true =>
              rw [crawlVisit_fetch_ok hp hsk hdom hc hlen hok]
              exact hfe _ rfl rfl
            | false =>
              rw [crawlVisit_fetch_fail hp hsk hdom hc hlen hok]
              exact hfe _ rfl rfl
      · rw [crawlVisit_external hp hsk hdom]; exact hInv key

/-- C1: over any run from the empty state, each normalized key is
fetched at most once; over any sequence of addPageVisit calls from the
empty registry, isFirst = true is returned at most once per key; a
crawlPage call initiates a fetch only when its addPageVisit returned
isFirst = true and exceedsLimit = false; and a visit whose normalized
key is already registered only increments that key's count and initiates
no fetch. -/
theorem c1_fetch_at_most_once (cfg : RunCfg) (env : Env) (events : List String)
    (key : String) :
    countKeyFetch (crawlRun cfg env events).fetches key ≤ 1 ∧
    (∀ keyseq : List String, countOccur (firstsTrace cfg.maxPages [] keyseq) key ≤ 1) ∧
    (∀ (s : CrawlState) (raw : String),
      (crawlVisit cfg env s raw).fetches ≠ s.fetches →
      ∃ u, goParse raw = some u ∧
        (addPageVisit cfg.maxPages s.pages (normKey u)).2.1 = true ∧
        (addPageVisit cfg.maxPages s.pages (normKey u)).2.2 = false) ∧
    (∀ (s : CrawlState) (raw : String) (u : GoURL) (c : Nat), goParse raw = some u →
      shouldSkipHost s.hostErrors (String.mk (goHostname u)) = false →
      String.mk (goHostname u) = cfg.baseHost →
      mapGet s.pages (normKey u) = some c →
      (crawlVisit cfg env s raw).pages = mapSet s.pages (normKey u) (c + 1) ∧
      (crawlVisit cfg env s raw).fetches = s.fetches) := by
  refine ⟨?_, fun keyseq => countOccur_firstsTrace_le_one cfg.maxPages keyseq key [], ?_, ?_⟩
  · have main := foldl_inv (P := fun t : CrawlState =>
        ∀ k2, countKeyFetch t.fetches k2 ≤ 1 ∧
          (1 ≤ countKeyFetch t.fetches k2 → ∃ c, mapGet t.pages k2 = some c))
      (crawlVisit cfg env) events initState
      (fun k2 => by simp [initState, countKeyFetch]) ?_
    · exact (main key).1
    · intro t a ht
      exact c1_inv_step cfg env t a ht
  · intro s raw hne
    cases hp : goParse raw with
    | none =>
      rw [crawlVisit_parse_fail hp] at hne
      exact absurd rfl hne
    | some u =>
      cases hsk : shouldSkipHost s.hostErrors (String.mk (goHostname u)) with
      | true =>
        rw [crawlVisit_skip hp hsk] at hne
        exact absurd rfl hne
      | false =>
        by_cases hdom : String.mk (goHostname u) = cfg.baseHost
        · cases hc : mapGet s.pages (normKey u) with
          | some c =>
            rw [crawlVisit_dup hp hsk hdom hc] at hne
            exact absurd rfl hne
          | none =>
            by_cases hlen : (s.pages.length : Int) ≥ cfg.maxPages
            · rw [crawlVisit_ceiling hp hsk hdom hc hlen] at hne
              exact absurd rfl hne
            · refine ⟨u, rfl, ?_, ?_⟩ <;> rw [addPageVisit_new hc hlen]
        · rw [crawlVisit_external hp hsk hdom] at hne
          exact absurd rfl hne
  · intro s raw u c hp hsk hdom hc
    rw [crawlVisit_dup hp hsk hdom hc]
    exact ⟨rfl, rfl⟩

/-- Witness for C1: a run that discovers the same page three times
fetches it exactly once. -/
theorem c1_fetch_at_most_once_witness :
    countKeyFetch (crawlRun ⟨"x.com", 5⟩ ⟨fun _ => true⟩
      ["https://x.com/a", "https://x.com/a", "https://x.com/a"]).fetches "x.com/a" ≤ 1 ∧
    countKeyFetch (crawlRun ⟨"x.com", 5⟩ ⟨fun _ => true⟩
      ["https://x.com/a", "https://x.com/a", "https://x.com/a"]).fetches "x.com/a" = 1 :=
  ⟨(c1_fetch_at_most_once ⟨"x.com", 5⟩ ⟨fun _ => true⟩
      ["https://x.com/a", "https://x.com/a", "https://x.com/a"] "x.com/a").1,
   by decide⟩

/-- C9 fails as stated for the deduplicating extractor
(src/unnamed/part_007 and src/extract_page_data.go): it drops the
duplicate anchor /a inside the page, so the crawl of the scenario page
registers x.com/a with discovery count 1, not at least 2. -/
theorem c9_counterexample :
    getURLsFromHTMLDedup xBase scenarioHTML = ["https://x.com/a", "https://x.com/b"] ∧
    mapGet scenarioRunDedup.pages "x.com/a" = some 1 ∧
    ¬2 ≤ getCount scenarioRunDedup.pages "x.com/a" :=
  ⟨by decide, by decide, by decide⟩

/-- C9 amended: with the non-deduplicating extractor of
src/get_urls_from_html.go the scenario crawl (seed https://x.com, page
with anchors /a, /b, /a) registers x.com/a and x.com/b, with discovery
count 2 ≥ 2 for x.com/a; with the deduplicating extractor of
src/extract_page_data.go both pages are still registered but x.com/a has
count 1. -/
theorem c9_duplicate_discovery_counts :
    getURLsFromHTMLKeepDup xBase scenarioHTML =
      ["https://x.com/a", "https://x.com/b", "https://x.com/a"] ∧
    mapGet scenarioRunKeepDup.pages "x.com/a" = some 2 ∧
    2 ≤ getCount scenarioRunKeepDup.pages "x.com/a" ∧
    mapGet scenarioRunKeepDup.pages "x.com/b" = some 1 ∧
    mapGet scenarioRunKeepDup.pages "x.com" = some 1 ∧
    mapGet scenarioRunDedup.pages "x.com/a" = some 1 ∧
    mapGet scenarioRunDedup.pages "x.com/b" = some 1 :=
  ⟨by decide, by decide, by decide, by decide, by decide, by decide, by decide⟩

end Crawler
